import Mathlib

/-!
Verification of the Linear Diffusion Overland Flow Router specification.

The repository sample contains the tutorial notebook describing the
`LinearDiffusionOverlandFlowRouter` component (its governing equations,
finite-volume update, infiltration law, CFL time-step limiter and adaptive
sub-stepping loop) together with calls into the component, but not the
component's own source file.  The solver is therefore modelled here from the
specification's description, as a shallow embedding over the real numbers:
meshes are finite index sets with status/geometry functions, per-node and
per-link fields are functions into `ℝ`, and the `advance` operation is a
fuel-indexed recursion mirroring the documented sub-stepping loop.
-/

namespace OverlandFlow

/-- Modelled from the spec: boundary classification of a mesh node
(CORE, FIXED_VALUE or CLOSED). -/
inductive NodeStatus where
  | core : NodeStatus
  | fixedValue : NodeStatus
  | closed : NodeStatus
deriving DecidableEq

/-- Modelled from the spec: the read-only mesh abstraction consumed by the
solver: nodes with a boundary status, a ground elevation and a cell area, and
links with head/tail endpoints, a length and a face length. -/
structure Mesh (nN nL : ℕ) where
  status : Fin nN → NodeStatus
  linkHead : Fin nL → Fin nN
  linkTail : Fin nL → Fin nN
  linkLength : Fin nL → ℝ
  faceLength : Fin nL → ℝ
  cellArea : Fin nN → ℝ
  elev : Fin nN → ℝ

/-- Whether a node is a core node. -/
def Mesh.isCore {nN nL : ℕ} (m : Mesh nN nL) (i : Fin nN) : Bool :=
  decide (m.status i = NodeStatus.core)

/-- Modelled from the spec: a link is ACTIVE unless one of its endpoints is a
CLOSED node. -/
def Mesh.linkActive {nN nL : ℕ} (m : Mesh nN nL) (e : Fin nL) : Bool :=
  decide (m.status (m.linkHead e) ≠ NodeStatus.closed) &&
    decide (m.status (m.linkTail e) ≠ NodeStatus.closed)

/-- Modelled from the spec: the solver's configuration parameters, fixed at
construction: rainfall rate, infiltration capacity, characteristic
infiltration depth, Manning roughness, characteristic velocity scale,
stability factor and the minimum-depth floor. -/
structure Params where
  rain : ℝ
  infiltCap : ℝ
  infiltDepthScale : ℝ
  roughness : ℝ
  velScale : ℝ
  alpha : ℝ
  depthFloor : ℝ

/-- The lumped friction parameter `n^2 * u_c`. -/
def nu (p : Params) : ℝ := p.roughness ^ 2 * p.velScale

/-- Default stability factor from the spec (0.2). -/
def defaultAlpha : ℝ := 0.2

/-- Default infiltration capacity from the spec (0). -/
def defaultInfiltCap : ℝ := 0

/-- Default characteristic infiltration depth (a small positive constant). -/
noncomputable def defaultInfiltDepthScale : ℝ := 1 / 1000

/-- Default minimum-depth floor from the spec (1e-9). -/
noncomputable def defaultDepthFloor : ℝ := 1 / 1000000000

/-- Construction with the documented default values for the stability factor,
the infiltration capacity, the characteristic infiltration depth and the
minimum-depth floor. -/
noncomputable def Params.withDefaults (rain roughness velScale : ℝ) : Params :=
  Params.mk rain defaultInfiltCap defaultInfiltDepthScale roughness velScale
    defaultAlpha defaultDepthFloor

/-- The mutable solver state: one water depth per node and one specific
discharge per link. -/
structure State (nN nL : ℕ) where
  depth : Fin nN → ℝ
  q : Fin nL → ℝ

/-- Modelled from the spec: construction zero-initializes the water-depth and
discharge fields. -/
def initState {nN nL : ℕ} (_m : Mesh nN nL) : State nN nL := State.mk (fun _ => 0) (fun _ => 0)

/-- Modelled from the spec: the nonlinear infiltration law
`I = I_c * (1 - exp (-H / H_i))`. -/
noncomputable def infiltration (p : Params) (h : ℝ) : ℝ :=
  p.infiltCap * (1 - Real.exp (-h / p.infiltDepthScale))

/-- Water-surface slope along a link, `(w_tail - w_head) / length` where
`w = elevation + depth`. -/
noncomputable def waterSlope {nN nL : ℕ} (m : Mesh nN nL) (H : Fin nN → ℝ) (e : Fin nL) : ℝ :=
  ((m.elev (m.linkTail e) + H (m.linkTail e)) -
      (m.elev (m.linkHead e) + H (m.linkHead e))) / m.linkLength e

/-- Water depth on the upwind (higher water-surface) side of a link. -/
noncomputable def upwindDepth {nN nL : ℕ} (m : Mesh nN nL) (H : Fin nN → ℝ) (e : Fin nL) : ℝ :=
  if m.elev (m.linkHead e) + H (m.linkHead e) ≤ m.elev (m.linkTail e) + H (m.linkTail e)
  then H (m.linkTail e) else H (m.linkHead e)

/-- Modelled from the spec: specific discharge on an active link,
`q = (H_face^(4/3) / (n^2 u_c)) * S_w * H_face`; inactive links carry no
discharge. -/
noncomputable def linkDischarge {nN nL : ℕ} (m : Mesh nN nL) (p : Params) (H : Fin nN → ℝ)
    (e : Fin nL) : ℝ :=
  if m.linkActive e then
    upwindDepth m H e ^ ((4 : ℝ) / 3) / nu p * waterSlope m H e * upwindDepth m H e
  else 0

/-- Orientation sign of a link at a node: `+1` at the tail and `-1` at the
head, so that with the slope convention `S_w = (w_tail - w_head) / L` a
positive discharge leaves the tail. -/
def linkSign {nN nL : ℕ} (m : Mesh nN nL) (i : Fin nN) (e : Fin nL) : ℝ :=
  (if m.linkTail e = i then 1 else 0) - (if m.linkHead e = i then 1 else 0)

/-- Modelled from the spec: net flux divergence at a node: face length times
discharge summed over the node's links with outflow positive, divided by the
cell area. -/
noncomputable def flowDiv {nN nL : ℕ} (m : Mesh nN nL) (qf : Fin nL → ℝ) (i : Fin nN) : ℝ :=
  (∑ e, linkSign m i e * m.faceLength e * qf e) / m.cellArea i

/-- Modelled from the spec: one forward-Euler finite-volume sub-step over
`dt`: discharges are recomputed from the current depths, every core node's
depth is updated by `dt * (R - I - divergence)` and clamped to be nonnegative,
and boundary nodes are left unchanged. -/
noncomputable def substep {nN nL : ℕ} (m : Mesh nN nL) (p : Params) (s : State nN nL) (dt : ℝ) : State nN nL :=
  State.mk
    (fun i =>
      if m.status i = NodeStatus.core then
        max 0 (s.depth i +
          dt * (p.rain - infiltration p (s.depth i) -
            flowDiv m (fun e => linkDischarge m p s.depth e) i))
      else s.depth i)
    (fun e => linkDischarge m p s.depth e)

/-- Maximum water depth over the core nodes (0 for a coreless mesh). -/
noncomputable def coreMaxDepth {nN nL : ℕ} (m : Mesh nN nL) (H : Fin nN → ℝ) : ℝ :=
  (((List.finRange nN).filter fun i => m.isCore i).map H).foldr max 0

/-- Length of the shortest active link (0 when the mesh has no active link,
which the degenerate-step check then rejects). -/
noncomputable def minActiveLinkLength {nN nL : ℕ} (m : Mesh nN nL) : ℝ :=
  match ((List.finRange nL).filter fun e => m.linkActive e).map m.linkLength with
  | [] => 0
  | x :: xs => xs.foldr min x

/-- Modelled from the spec: the stability-limited step
`dt_max = alpha * L_min^2 / (2 * D)` with
`D = max(H_max, floor)^(7/3) / (n^2 u_c)` computed from the current maximum
core-node depth clamped to the minimum-depth floor. -/
noncomputable def dtMax {nN nL : ℕ} (m : Mesh nN nL) (p : Params) (H : Fin nN → ℝ) : ℝ :=
  p.alpha * minActiveLinkLength m ^ 2 /
    (2 * ((max (coreMaxDepth m H) p.depthFloor) ^ ((7 : ℝ) / 3) / nu p))

/-- Result of an `advance` call: final state, unelapsed time, whether the
defensive degenerate-step check fired (the NumericalInstabilityError), the
sizes of the completed sub-steps in order, and the (state, remaining time)
pair at the start of each completed sub-step. -/
structure AdvanceResult (nN nL : ℕ) where
  state : State nN nL
  remaining : ℝ
  errored : Bool
  steps : List ℝ
  trace : List (State nN nL × ℝ)

/-- Modelled from the spec: the adaptive sub-stepping loop of
`advance(global_dt)`.  While time remains it computes `dt_max` from the
current state, fails defensively if that bound is degenerate (leaving the
state as produced by the last completed sub-step), otherwise performs one
sub-step of size `min dt_max remaining` and recurses on the time left.  The
fuel argument only makes the recursion structural; theorems quantify over
sufficient fuel. -/
noncomputable def advanceAux {nN nL : ℕ} (m : Mesh nN nL) (p : Params) :
    ℕ → ℝ → State nN nL → AdvanceResult nN nL
  | 0, r, s => AdvanceResult.mk s r false [] []
  | fuel + 1, r, s =>
    if r ≤ 0 then AdvanceResult.mk s r false [] []
    else if dtMax m p s.depth ≤ 0 then AdvanceResult.mk s r true [] []
    else
      let d := min (dtMax m p s.depth) r
      let res := advanceAux m p fuel (r - d) (substep m p s d)
      AdvanceResult.mk res.state res.remaining res.errored (d :: res.steps)
        ((s, r) :: res.trace)

/-- Modelled from the spec: the construction error for invalid parameters. -/
inductive ConfigurationError where
  | invalidParameters : ConfigurationError
deriving DecidableEq

/-- A constructed solver: validated parameters plus the owned state. -/
structure Solver (nN nL : ℕ) where
  params : Params
  state : State nN nL

/-- Modelled from the spec: construction fails with a ConfigurationError if
`alpha > 1` or `alpha ≤ 0` or the roughness or the velocity scale is
non-positive; otherwise it returns a solver with zero-initialized fields. -/
noncomputable def makeSolver {nN nL : ℕ} (m : Mesh nN nL) (p : Params) :
    Except ConfigurationError (Solver nN nL) :=
  if 1 < p.alpha ∨ p.alpha ≤ 0 ∨ p.roughness ≤ 0 ∨ p.velScale ≤ 0 then
    Except.error ConfigurationError.invalidParameters
  else Except.ok (Solver.mk p (initState m))

/-- Total water volume, depth times cell area summed over the nodes. -/
noncomputable def totalVolume {nN nL : ℕ} (m : Mesh nN nL) (H : Fin nN → ℝ) : ℝ :=
  ∑ i, H i * m.cellArea i

/-- Total horizontal area of the core cells. -/
noncomputable def coreArea {nN nL : ℕ} (m : Mesh nN nL) : ℝ :=
  ∑ i, if m.status i = NodeStatus.core then m.cellArea i else 0

/-- A sequence of advance calls: each entry provides a fuel bound, the
rainfall rate set by the caller before the call (the mutable rain_rate), and
the global time step for that call. -/
noncomputable def runCalls {nN nL : ℕ} (m : Mesh nN nL) (p : Params)
    (calls : List (ℕ × ℝ × ℝ)) (s : State nN nL) : State nN nL :=
  calls.foldl (fun st c =>
    (advanceAux m (Params.mk c.2.1 p.infiltCap p.infiltDepthScale p.roughness p.velScale
      p.alpha p.depthFloor) c.1 c.2.2 st).state) s

/-- A run of the sub-stepping loop engages no clamp: at every sub-step the
pre-clamp updated depth of every core node is already nonnegative. -/
def noClampRun {nN nL : ℕ} (m : Mesh nN nL) (p : Params) : ℕ → ℝ → State nN nL → Prop
  | 0, _, _ => True
  | fuel + 1, r, s =>
    (0 < r ∧ 0 < dtMax m p s.depth) →
      ((∀ i, m.status i = NodeStatus.core →
          0 ≤ s.depth i + min (dtMax m p s.depth) r *
            (p.rain - infiltration p (s.depth i) -
              flowDiv m (fun e => linkDischarge m p s.depth e) i)) ∧
        noClampRun m p fuel (r - min (dtMax m p s.depth) r)
          (substep m p s (min (dtMax m p s.depth) r)))

/-- Concrete mesh used by witnesses: two core nodes joined by one active link
of length 2 and face length 2, flat elevation, cell area 4. -/
def meshTwoCore : Mesh 2 1 :=
  Mesh.mk (fun _ => NodeStatus.core) (fun _ => 0) (fun _ => 1)
    (fun _ => 2) (fun _ => 2) (fun _ => 4) (fun _ => 0)

/-- Concrete parameters used by witnesses: no rain, no infiltration, unit
characteristic depth, unit roughness and velocity scale, stability factor
one half, depth floor 1. -/
noncomputable def paramsW : Params := Params.mk 0 0 1 1 1 (1 / 2) 1

/-- Parameters with a zero depth floor: on a dry domain the effective
diffusivity degenerates and the defensive instability check fires. -/
noncomputable def paramsErr : Params := Params.mk 0 0 1 1 1 (1 / 2) 0

/-- Concrete mesh for the mass-conservation counterexample: two core cells
joined by one active link, the head cell sitting on a 10 m elevation step, and
one CLOSED boundary node whose link is inactive.  Every boundary node is
CLOSED. -/
def meshSteep : Mesh 3 2 :=
  Mesh.mk
    (fun i => if i.val = 2 then NodeStatus.closed else NodeStatus.core)
    (fun e => if e.val = 0 then 0 else 1)
    (fun e => if e.val = 0 then 1 else 2)
    (fun _ => 1)
    (fun _ => 1)
    (fun _ => 1)
    (fun i => if i.val = 0 then 10 else 0)

/-- Parameters for the mass-conservation counterexample: no rain, no
infiltration, default-style stability factor 1/5, depth floor 1/2. -/
noncomputable def paramsSteep : Params := Params.mk 0 0 1 1 1 (1/5) (1/2)

/-- Initial state for the counterexample: one metre of water perched on the
elevated cell, everything else dry. -/
noncomputable def stateSteep : State 3 2 :=
  State.mk (fun i => if i.val = 0 then 1 else 0) (fun _ => 0)

/-- Mesh for the step-subdivision counterexample: one core cell whose only
link leads to a FIXED_VALUE boundary node perched 10 m higher (and held at
zero depth), so the link never carries discharge and the core cell evolves by
infiltration alone. -/
def meshHighBoundary : Mesh 2 1 :=
  Mesh.mk (fun i => if i.val = 0 then NodeStatus.core else NodeStatus.fixedValue)
    (fun _ => 0) (fun _ => 1) (fun _ => 2) (fun _ => 2) (fun _ => 4)
    (fun i => if i.val = 0 then 0 else 10)

/-- Parameters for the step-subdivision counterexample: no rain, unit
infiltration capacity and characteristic depth, default-style stability
factor 1/5, depth floor 1. -/
noncomputable def paramsInf : Params := Params.mk 0 1 1 1 1 (1/5) 1

/-- Initial state for the step-subdivision counterexample: one metre of water
on the core cell. -/
noncomputable def stateInf : State 2 1 :=
  State.mk (fun i => if i.val = 0 then 1 else 0) (fun _ => 0)

/-- Scalar stability-limited step of the single-cell reduction:
`A / max(max(h,0), eps)^(7/3)` where `A = alpha * dx^2 * (n^2 u_c) / 2`. -/
noncomputable def scalarDt (A ε h : ℝ) : ℝ := A / (max (max h 0) ε) ^ ((7:ℝ)/3)

/-- Scalar Euler update of the single-cell reduction: a stability-limited
step of the clamped rain-minus-outflow balance. -/
noncomputable def scalarStep (R c A ε h : ℝ) : ℝ :=
  max 0 (h + scalarDt A ε h * (R - c * h ^ ((10:ℝ)/3)))

/-- Single-cell mesh of the steady-state claim: one core cell of spacing `dx`
(cell area `dx^2`, face length and link length `dx`) with one open
FIXED_VALUE boundary neighbor at the same (zero) elevation. -/
def meshSingle (dx : ℝ) : Mesh 2 1 :=
  Mesh.mk (fun i => if i.val = 0 then NodeStatus.core else NodeStatus.fixedValue)
    (fun _ => 0) (fun _ => 1) (fun _ => dx) (fun _ => dx) (fun _ => dx^2) (fun _ => 0)

/-- The canonical intra-advance iteration from the freshly constructed state:
repeated sub-steps, each at the stability-limited size computed from the
current state (this is what `advance` performs while the stability bound is
smaller than the time remaining). -/
noncomputable def cflIter {nN nL : ℕ} (m : Mesh nN nL) (p : Params) : ℕ → State nN nL
  | 0 => initState m
  | k + 1 => substep m p (cflIter m p k) (dtMax m p (cflIter m p k).depth)

/-- The documented example parameters of the single-cell test: rainfall
2e-5 m/s, no infiltration, roughness 0.01, velocity scale 1, default-style
stability factor 0.2 and depth floor 1e-9. -/
noncomputable def paramsSC : Params :=
  Params.mk (1/50000) 0 (1/1000) (1/100) 1 (1/5) (1/1000000000)

/-- A sub-step leaves every depth nonnegative: core nodes are clamped by
`max 0`, boundary nodes are untouched. -/
theorem substep_depth_nonneg {nN nL : ℕ} (m : Mesh nN nL) (p : Params) (s : State nN nL)
    (hd : ∀ i, 0 ≤ s.depth i) (dt : ℝ) (i : Fin nN) :
    0 ≤ (substep m p s dt).depth i := by
  dsimp only [substep]
  split
  · exact le_max_left 0 _
  · exact hd i

/-- Depth nonnegativity is preserved by the whole sub-stepping loop. -/
theorem advanceAux_depth_nonneg {nN nL : ℕ} (m : Mesh nN nL) (p : Params) (fuel : ℕ) :
    ∀ (r : ℝ) (s : State nN nL), (∀ i, 0 ≤ s.depth i) →
      ∀ i, 0 ≤ (advanceAux m p fuel r s).state.depth i := by
  induction fuel with
  | zero => intro r s hd i; simpa [advanceAux] using hd i
  | succ n ih =>
    intro r s hd i
    by_cases hr : r ≤ 0
    · simpa [advanceAux, hr] using hd i
    · by_cases hdt : dtMax m p s.depth ≤ 0
      · simpa [advanceAux, hr, hdt] using hd i
      · simpa [advanceAux, hr, hdt] using
          ih _ _ (fun j => substep_depth_nonneg m p s hd _ j) i

/-- The completed sub-step sizes always account exactly for the elapsed part
of the requested interval. -/
theorem advanceAux_steps_sum {nN nL : ℕ} (m : Mesh nN nL) (p : Params) (fuel : ℕ) :
    ∀ (r : ℝ) (s : State nN nL),
      (advanceAux m p fuel r s).steps.sum =
        r - (advanceAux m p fuel r s).remaining := by
  induction fuel with
  | zero => intro r s; simp [advanceAux]
  | succ n ih =>
    intro r s
    by_cases hr : r ≤ 0
    · simp [advanceAux, hr]
    · by_cases hdt : dtMax m p s.depth ≤ 0
      · simp [advanceAux, hr, hdt]
      · simp only [advanceAux, hr, hdt, if_false, List.sum_cons]
        rw [ih]
        ring

/-- The returned state is exactly the left fold of the completed sub-steps
over the starting state: no partial sub-step is ever applied, also not when
the loop stops with an error. -/
theorem advanceAux_state_foldl {nN nL : ℕ} (m : Mesh nN nL) (p : Params) (fuel : ℕ) :
    ∀ (r : ℝ) (s : State nN nL),
      (advanceAux m p fuel r s).state =
        (advanceAux m p fuel r s).steps.foldl (substep m p) s := by
  induction fuel with
  | zero => intro r s; simp [advanceAux]
  | succ n ih =>
    intro r s
    by_cases hr : r ≤ 0
    · simp [advanceAux, hr]
    · by_cases hdt : dtMax m p s.depth ≤ 0
      · simp [advanceAux, hr, hdt]
      · simp only [advanceAux, hr, hdt, if_false, List.foldl_cons]
        exact ih _ _

/-- Remaining time never becomes negative and never grows. -/
theorem advanceAux_remaining_le {nN nL : ℕ} (m : Mesh nN nL) (p : Params) (fuel : ℕ) :
    ∀ (r : ℝ) (s : State nN nL), 0 ≤ r →
      0 ≤ (advanceAux m p fuel r s).remaining ∧
        (advanceAux m p fuel r s).remaining ≤ r := by
  induction fuel with
  | zero => intro r s hr; simp [advanceAux, hr]
  | succ n ih =>
    intro r s hr
    by_cases hr0 : r ≤ 0
    · simp [advanceAux, hr0, hr]
    · by_cases hdt : dtMax m p s.depth ≤ 0
      · simp [advanceAux, hr0, hdt, hr]
      · have hd : min (dtMax m p s.depth) r ≤ r := min_le_right _ _
        have hd2 : 0 ≤ min (dtMax m p s.depth) r :=
          le_min (le_of_lt (lt_of_not_le hdt)) (le_of_not_le hr0)
        have h0 : 0 ≤ r - min (dtMax m p s.depth) r := by linarith
        have := ih (r - min (dtMax m p s.depth) r) (substep m p s (min (dtMax m p s.depth) r)) h0
        simp only [advanceAux, hr0, hdt, if_false]
        refine ⟨this.1, le_trans this.2 (by linarith)⟩

/-- Core-node depth maximum evaluated on the two-core mesh. -/
theorem coreMaxDepth_meshTwoCore (H : Fin 2 → ℝ) :
    coreMaxDepth meshTwoCore H = max (H 0) (max (H 1) 0) := by
  simp [coreMaxDepth, meshTwoCore, Mesh.isCore, List.finRange]

/-- Shortest active link length of the two-core mesh. -/
theorem minActiveLinkLength_meshTwoCore : minActiveLinkLength meshTwoCore = 2 := by
  simp [minActiveLinkLength, meshTwoCore, Mesh.linkActive, List.finRange]

/-- On the two-core mesh with the witness parameters, the stability-limited
step evaluates to 1 whenever the depths are zero (the depth floor governs). -/
theorem dtMax_meshTwoCore_paramsW (H : Fin 2 → ℝ) (h0 : H 0 = 0) (h1 : H 1 = 0) :
    dtMax meshTwoCore paramsW H = 1 := by
  rw [dtMax, coreMaxDepth_meshTwoCore, minActiveLinkLength_meshTwoCore, h0, h1]
  norm_num [paramsW, nu, Real.one_rpow]

/-- With the witness parameters (no rain, no infiltration) a sub-step maps the
all-dry state of the two-core mesh to an all-dry state. -/
theorem substep_meshTwoCore_zero (s : State 2 1) (hd : ∀ i, s.depth i = 0) (dt : ℝ) :
    ∀ i, (substep meshTwoCore paramsW s dt).depth i = 0 := by
  intro i
  have hq : ∀ e : Fin 1, linkDischarge meshTwoCore paramsW s.depth e = 0 := by
    intro e
    simp [linkDischarge, waterSlope, meshTwoCore, hd]
  have hI : infiltration paramsW 0 = 0 := by
    simp [infiltration, paramsW]
  have hdiv : flowDiv meshTwoCore (fun e => linkDischarge meshTwoCore paramsW s.depth e) i = 0 := by
    simp only [flowDiv, hq, mul_zero, Finset.sum_const_zero, zero_div]
  dsimp only [substep]
  rw [if_pos]
  · have hR : paramsW.rain = 0 := rfl
    rw [hd i, hI, hdiv, hR]
    simp
  · rfl

/-- C1: the stored water depth is nonnegative for every node at every time:
construction zero-initializes the depth field, every sub-step clamps each
updated core depth to be nonnegative before it completes (boundary depths are
untouched), and therefore every state produced by the sub-stepping loop from
a nonnegative state again has nonnegative depth everywhere. -/
theorem waterDepth_nonneg :
    (∀ (nN nL : ℕ) (m : Mesh nN nL) (i : Fin nN), (initState m).depth i = 0) ∧
    (∀ (nN nL : ℕ) (m : Mesh nN nL) (p : Params) (s : State nN nL) (dt : ℝ),
      (∀ i, 0 ≤ s.depth i) → ∀ i, 0 ≤ (substep m p s dt).depth i) ∧
    (∀ (nN nL : ℕ) (m : Mesh nN nL) (p : Params) (fuel : ℕ) (r : ℝ) (s : State nN nL),
      (∀ i, 0 ≤ s.depth i) → ∀ i, 0 ≤ (advanceAux m p fuel r s).state.depth i) :=
  ⟨fun _ _ _ _ => rfl,
   fun _ _ m p s dt hd i => substep_depth_nonneg m p s hd dt i,
   fun _ _ m p fuel r s hd i => advanceAux_depth_nonneg m p fuel r s hd i⟩

/-- C1 witness: the nonnegativity theorem applied to a concrete run on the
two-core mesh, its hypothesis discharged at the zero-initialized state. -/
theorem waterDepth_nonneg_witness :
    0 ≤ (advanceAux meshTwoCore paramsW 3 1 (initState meshTwoCore)).state.depth 0 ∧
      (initState meshTwoCore).depth 0 = 0 :=
  ⟨waterDepth_nonneg.2.2 2 1 meshTwoCore paramsW 3 1 (initState meshTwoCore)
      (fun _ => le_refl 0) 0,
   waterDepth_nonneg.1 2 1 meshTwoCore 0⟩

/-- The trace of sub-step start states is exactly as long as the list of
sub-step sizes. -/
theorem advanceAux_trace_length {nN nL : ℕ} (m : Mesh nN nL) (p : Params) (fuel : ℕ) :
    ∀ (r : ℝ) (s : State nN nL),
      (advanceAux m p fuel r s).trace.length = (advanceAux m p fuel r s).steps.length := by
  induction fuel with
  | zero => intro r s; simp [advanceAux]
  | succ n ih =>
    intro r s
    by_cases hr : r ≤ 0
    · simp [advanceAux, hr]
    · by_cases hdt : dtMax m p s.depth ≤ 0
      · simp [advanceAux, hr, hdt]
      · simp only [advanceAux, hr, hdt, if_false, List.length_cons]
        rw [ih]

/-- C2: every internal sub-step size is exactly `min dt_max remaining`, and in
particular never exceeds `alpha * L_min^2 / (2 * D)` where
`D = max(H_max, floor)^(7/3) / (n^2 * u_c)` is computed from the maximum
core-node water depth at the start of that same sub-step, as recorded in the
execution trace. -/
theorem substeps_respect_cfl {nN nL : ℕ} (m : Mesh nN nL) (p : Params) (fuel : ℕ) :
    ∀ (r : ℝ) (s : State nN nL) (k : ℕ),
      k < (advanceAux m p fuel r s).steps.length →
      (advanceAux m p fuel r s).steps.getD k 0 =
          min (dtMax m p ((advanceAux m p fuel r s).trace.getD k (s, r)).1.depth)
            ((advanceAux m p fuel r s).trace.getD k (s, r)).2 ∧
        (advanceAux m p fuel r s).steps.getD k 0 ≤
          p.alpha * minActiveLinkLength m ^ 2 /
            (2 * ((max (coreMaxDepth m ((advanceAux m p fuel r s).trace.getD k (s, r)).1.depth)
                p.depthFloor) ^ ((7 : ℝ) / 3) / (p.roughness ^ 2 * p.velScale))) := by
  induction fuel with
  | zero => intro r s k hk; simp [advanceAux] at hk
  | succ n ih =>
    intro r s k hk
    by_cases hr : r ≤ 0
    · rw [advanceAux] at hk
      simp [hr] at hk
    · by_cases hdt : dtMax m p s.depth ≤ 0
      · rw [advanceAux] at hk
        simp [hr, hdt] at hk
      · cases k with
        | zero =>
          refine ⟨by simp [advanceAux, hr, hdt], ?_⟩
          have h1 : min (dtMax m p s.depth) r ≤ dtMax m p s.depth := min_le_left _ _
          simp only [advanceAux, hr, hdt, if_false, List.getD_cons_zero]
          rw [dtMax, nu] at h1
          exact h1
        | succ k' =>
          have hk' : k' < (advanceAux m p n (r - min (dtMax m p s.depth) r)
              (substep m p s (min (dtMax m p s.depth) r))).steps.length := by
            rw [advanceAux] at hk
            simpa [hr, hdt] using hk
          have htl := advanceAux_trace_length m p n (r - min (dtMax m p s.depth) r)
              (substep m p s (min (dtMax m p s.depth) r))
          have hk2 : k' < (advanceAux m p n (r - min (dtMax m p s.depth) r)
              (substep m p s (min (dtMax m p s.depth) r))).trace.length := by
            rw [htl]; exact hk'
          have hIH := ih (r - min (dtMax m p s.depth) r)
              (substep m p s (min (dtMax m p s.depth) r)) k' hk'
          simp only [advanceAux, hr, hdt, if_false, List.getD_cons_succ]
          rw [List.getD_eq_getElem _ _ hk2]
          rw [List.getD_eq_getElem _ _ hk2] at hIH
          exact hIH

/-- Helper for the C2 witness: the concrete run takes at least one sub-step. -/
theorem cfl_witness_len :
    0 < (advanceAux meshTwoCore paramsW 1 (1/2) (initState meshTwoCore)).steps.length := by
  have hd : dtMax meshTwoCore paramsW (initState meshTwoCore).depth = 1 :=
    dtMax_meshTwoCore_paramsW _ rfl rfl
  show 0 < (advanceAux meshTwoCore paramsW (0 + 1) (1/2) (initState meshTwoCore)).steps.length
  rw [advanceAux]
  norm_num [hd]

/-- C2 witness: the CFL theorem applied to the first sub-step of a concrete
run on the two-core mesh. -/
theorem substeps_respect_cfl_witness :
    0 < (advanceAux meshTwoCore paramsW 1 (1/2) (initState meshTwoCore)).steps.length ∧
    (advanceAux meshTwoCore paramsW 1 (1/2) (initState meshTwoCore)).steps.getD 0 0 ≤
      paramsW.alpha * minActiveLinkLength meshTwoCore ^ 2 /
        (2 * ((max (coreMaxDepth meshTwoCore
              ((advanceAux meshTwoCore paramsW 1 (1/2) (initState meshTwoCore)).trace.getD 0
                (initState meshTwoCore, 1/2)).1.depth)
            paramsW.depthFloor) ^ ((7 : ℝ) / 3) /
          (paramsW.roughness ^ 2 * paramsW.velScale))) :=
  ⟨cfl_witness_len,
   (substeps_respect_cfl meshTwoCore paramsW 1 (1/2) (initState meshTwoCore) 0 cfl_witness_len).2⟩

/-- Indicator identity: summing a link's orientation sign over the core nodes
leaves the core indicators of its two endpoints. -/
theorem statusIndicator_sum {nN nL : ℕ} (m : Mesh nN nL) (e : Fin nL) :
    (∑ i, (if m.status i = NodeStatus.core then linkSign m i e else 0)) =
      (if m.status (m.linkTail e) = NodeStatus.core then (1:ℝ) else 0) -
        (if m.status (m.linkHead e) = NodeStatus.core then (1:ℝ) else 0) := by
  have h1 : ∀ i : Fin nN, (if m.status i = NodeStatus.core then linkSign m i e else 0) =
      (if m.linkTail e = i then (if m.status i = NodeStatus.core then (1:ℝ) else 0) else 0) -
        (if m.linkHead e = i then (if m.status i = NodeStatus.core then (1:ℝ) else 0) else 0) := by
    intro i
    unfold linkSign
    by_cases hc : m.status i = NodeStatus.core <;>
      by_cases ht : m.linkTail e = i <;>
        by_cases hh : m.linkHead e = i <;>
          simp [hc, ht, hh]
  rw [Finset.sum_congr rfl (fun i _ => h1 i), Finset.sum_sub_distrib,
    Finset.sum_ite_eq, Finset.sum_ite_eq]
  simp

/-- Over a domain whose boundary nodes are all CLOSED, the cell-area-weighted
flux divergences of the core nodes cancel: every active link joins two core
cells and its flux appears once with each sign. -/
theorem coreDiv_sum_zero {nN nL : ℕ} (m : Mesh nN nL) (p : Params) (H : Fin nN → ℝ)
    (hclosed : ∀ i, m.status i ≠ NodeStatus.fixedValue)
    (harea : ∀ i, m.status i = NodeStatus.core → m.cellArea i ≠ 0) :
    (∑ i, (if m.status i = NodeStatus.core then
        flowDiv m (fun e => linkDischarge m p H e) i * m.cellArea i else 0)) = 0 := by
  have step1 : ∀ i : Fin nN, (if m.status i = NodeStatus.core then
      flowDiv m (fun e => linkDischarge m p H e) i * m.cellArea i else 0) =
      ∑ e, (if m.status i = NodeStatus.core then
        linkSign m i e * m.faceLength e * linkDischarge m p H e else 0) := by
    intro i
    by_cases hc : m.status i = NodeStatus.core
    · rw [if_pos hc, flowDiv, div_mul_cancel₀ _ (harea i hc)]
      exact Finset.sum_congr rfl (fun e _ => (if_pos hc).symm)
    · rw [if_neg hc]
      symm
      exact Finset.sum_eq_zero (fun e _ => if_neg hc)
  rw [Finset.sum_congr rfl (fun i _ => step1 i), Finset.sum_comm]
  refine Finset.sum_eq_zero (fun e _ => ?_)
  have factor : ∀ i : Fin nN, (if m.status i = NodeStatus.core then
      linkSign m i e * m.faceLength e * linkDischarge m p H e else 0) =
      (if m.status i = NodeStatus.core then linkSign m i e else 0) *
        (m.faceLength e * linkDischarge m p H e) := by
    intro i
    by_cases hc : m.status i = NodeStatus.core <;> simp [hc] <;> ring
  rw [Finset.sum_congr rfl (fun i _ => factor i), ← Finset.sum_mul, statusIndicator_sum]
  by_cases hact : m.linkActive e
  · have hh : m.status (m.linkHead e) = NodeStatus.core := by
      have hfv := hclosed (m.linkHead e)
      have h2 : m.status (m.linkHead e) ≠ NodeStatus.closed := by
        have hb := hact
        unfold Mesh.linkActive at hb
        simp only [Bool.and_eq_true, decide_eq_true_eq] at hb
        exact hb.1
      cases hstat : m.status (m.linkHead e) with
      | core => rfl
      | fixedValue => exact absurd hstat hfv
      | closed => exact absurd hstat h2
    have ht : m.status (m.linkTail e) = NodeStatus.core := by
      have hfv := hclosed (m.linkTail e)
      have h2 : m.status (m.linkTail e) ≠ NodeStatus.closed := by
        have hb := hact
        unfold Mesh.linkActive at hb
        simp only [Bool.and_eq_true, decide_eq_true_eq] at hb
        exact hb.2
      cases hstat : m.status (m.linkTail e) with
      | core => rfl
      | fixedValue => exact absurd hstat hfv
      | closed => exact absurd hstat h2
    rw [if_pos hh, if_pos ht]
    ring
  · have hq : linkDischarge m p H e = 0 := by
      unfold linkDischarge
      rw [if_neg hact]
    rw [hq]
    ring

/-- One clamp-free sub-step over a closed domain with no infiltration changes
the total volume by exactly rainfall times core area times the step size. -/
theorem substep_totalVolume {nN nL : ℕ} (m : Mesh nN nL) (p : Params) (s : State nN nL) (dt : ℝ)
    (hclosed : ∀ i, m.status i ≠ NodeStatus.fixedValue)
    (hinf : p.infiltCap = 0)
    (harea : ∀ i, m.status i = NodeStatus.core → m.cellArea i ≠ 0)
    (hnoclamp : ∀ i, m.status i = NodeStatus.core →
      0 ≤ s.depth i + dt * (p.rain - infiltration p (s.depth i) -
        flowDiv m (fun e => linkDischarge m p s.depth e) i)) :
    totalVolume m (substep m p s dt).depth =
      totalVolume m s.depth + p.rain * coreArea m * dt := by
  have hI : ∀ h : ℝ, infiltration p h = 0 := fun h => by simp [infiltration, hinf]
  unfold totalVolume
  have expand : ∀ i, (substep m p s dt).depth i * m.cellArea i =
      s.depth i * m.cellArea i +
        dt * p.rain * (if m.status i = NodeStatus.core then m.cellArea i else 0) -
        dt * (if m.status i = NodeStatus.core then
          flowDiv m (fun e => linkDischarge m p s.depth e) i * m.cellArea i else 0) := by
    intro i
    dsimp only [substep]
    by_cases hc : m.status i = NodeStatus.core
    · have hnc := hnoclamp i hc
      rw [hI] at hnc
      rw [if_pos hc, if_pos hc, if_pos hc, hI, max_eq_right hnc]
      ring
    · rw [if_neg hc, if_neg hc, if_neg hc]
      ring
  rw [Finset.sum_congr rfl (fun i _ => expand i)]
  rw [Finset.sum_sub_distrib, Finset.sum_add_distrib, ← Finset.mul_sum, ← Finset.mul_sum,
    coreDiv_sum_zero m p s.depth hclosed harea]
  unfold coreArea
  ring

/-- C3 amended: over a mesh whose boundary nodes are all CLOSED, with zero
infiltration capacity and constant rainfall, and provided the depth clamp is
never engaged during the run, the total volume grows by exactly rainfall
times total core-cell area times the elapsed simulated time.  (The original
claim holds only under the no-clamp proviso: the clamp can create volume, see
the counterexample.) -/
theorem mass_conservation_closed {nN nL : ℕ} (m : Mesh nN nL) (p : Params) (fuel : ℕ) :
    ∀ (r : ℝ) (s : State nN nL),
      (∀ i, m.status i ≠ NodeStatus.fixedValue) →
      p.infiltCap = 0 →
      (∀ i, m.status i = NodeStatus.core → m.cellArea i ≠ 0) →
      noClampRun m p fuel r s →
      totalVolume m (advanceAux m p fuel r s).state.depth =
        totalVolume m s.depth +
          p.rain * coreArea m * (r - (advanceAux m p fuel r s).remaining) := by
  induction fuel with
  | zero => intro r s _ _ _ _; simp [advanceAux]
  | succ n ih =>
    intro r s hcl hinf har hnc
    by_cases hr : r ≤ 0
    · simp [advanceAux, hr]
    · by_cases hdt : dtMax m p s.depth ≤ 0
      · simp [advanceAux, hr, hdt]
      · have hcond : 0 < r ∧ 0 < dtMax m p s.depth := ⟨lt_of_not_le hr, lt_of_not_le hdt⟩
        obtain ⟨hstep, hrest⟩ := hnc hcond
        have hvol := substep_totalVolume m p s (min (dtMax m p s.depth) r) hcl hinf har hstep
        have hIH := ih (r - min (dtMax m p s.depth) r)
            (substep m p s (min (dtMax m p s.depth) r)) hcl hinf har hrest
        simp only [advanceAux, hr, hdt, if_false]
        rw [hIH, hvol]
        ring

/-- Link 0 of the counterexample mesh is active. -/
theorem meshSteep_active0 : meshSteep.linkActive 0 = true := by decide

/-- Link 1 of the counterexample mesh touches the closed node, so it is
inactive. -/
theorem meshSteep_active1 : meshSteep.linkActive 1 = false := by decide

/-- Discharge on the active link of the counterexample: the 10 m elevation
step with 1 m of perched water gives a slope of -11 and unit upwind depth. -/
theorem steep_q0 : linkDischarge meshSteep paramsSteep stateSteep.depth 0 = -11 := by
  rw [linkDischarge, meshSteep_active0, if_pos rfl]
  rw [upwindDepth, waterSlope]
  norm_num [meshSteep, stateSteep, nu, paramsSteep, Real.one_rpow]

/-- The inactive link of the counterexample carries no discharge. -/
theorem steep_q1 : linkDischarge meshSteep paramsSteep stateSteep.depth 1 = 0 := by
  rw [linkDischarge, meshSteep_active1]
  norm_num

/-- Maximum core depth of the counterexample initial state. -/
theorem steep_coreMax : coreMaxDepth meshSteep stateSteep.depth = 1 := by
  simp [coreMaxDepth, meshSteep, Mesh.isCore, List.finRange, stateSteep]

/-- Shortest active link length of the counterexample mesh. -/
theorem steep_minLen : minActiveLinkLength meshSteep = 1 := by
  simp [minActiveLinkLength, meshSteep, Mesh.linkActive, List.finRange]

/-- Stability-limited step at the counterexample initial state. -/
theorem steep_dtMax : dtMax meshSteep paramsSteep stateSteep.depth = 1 / 10 := by
  rw [dtMax, steep_coreMax, steep_minLen]
  norm_num [paramsSteep, nu, Real.one_rpow]

/-- Flux divergence of the perched cell: 11 (outflow). -/
theorem steep_div0 :
    flowDiv meshSteep (fun e => linkDischarge meshSteep paramsSteep stateSteep.depth e) 0
      = 11 := by
  rw [flowDiv, Fin.sum_univ_two, steep_q0, steep_q1]
  norm_num [linkSign, meshSteep]

/-- Flux divergence of the dry receiving cell: -11 (inflow). -/
theorem steep_div1 :
    flowDiv meshSteep (fun e => linkDischarge meshSteep paramsSteep stateSteep.depth e) 1
      = -11 := by
  rw [flowDiv, Fin.sum_univ_two, steep_q0, steep_q1]
  norm_num [linkSign, meshSteep]

/-- The perched cell would be drawn to -1/10 m and is clamped to zero. -/
theorem steep_substep_depth0 :
    (substep meshSteep paramsSteep stateSteep (1/10)).depth 0 = 0 := by
  dsimp only [substep]
  rw [if_pos (show meshSteep.status 0 = NodeStatus.core by decide), steep_div0]
  norm_num [stateSteep, infiltration, paramsSteep]

/-- The receiving cell gains 11/10 m, more water than the domain holds. -/
theorem steep_substep_depth1 :
    (substep meshSteep paramsSteep stateSteep (1/10)).depth 1 = 11 / 10 := by
  dsimp only [substep]
  rw [if_pos (show meshSteep.status 1 = NodeStatus.core by decide), steep_div1]
  norm_num [stateSteep, infiltration, paramsSteep]

/-- The closed boundary node stays dry. -/
theorem steep_substep_depth2 :
    (substep meshSteep paramsSteep stateSteep (1/10)).depth 2 = 0 := by
  dsimp only [substep]
  rw [if_neg (show ¬ meshSteep.status 2 = NodeStatus.core by decide)]
  norm_num [stateSteep]

/-- The counterexample advance call runs exactly one sub-step of size 1/10 and
completes. -/
theorem steep_advance_eq :
    advanceAux meshSteep paramsSteep 2 (1/10) stateSteep =
      AdvanceResult.mk (substep meshSteep paramsSteep stateSteep (1/10)) 0 false
        [1/10] [(stateSteep, 1/10)] := by
  have hmin : min (dtMax meshSteep paramsSteep stateSteep.depth) (1/10 : ℝ) = 1/10 := by
    rw [steep_dtMax]
    exact min_self _
  have hrec : advanceAux meshSteep paramsSteep 1 ((1/10 : ℝ) - 1/10)
      (substep meshSteep paramsSteep stateSteep (1/10)) =
      AdvanceResult.mk (substep meshSteep paramsSteep stateSteep (1/10)) ((1/10:ℝ) - 1/10)
        false [] [] := by
    show advanceAux meshSteep paramsSteep (0+1) ((1/10 : ℝ) - 1/10)
      (substep meshSteep paramsSteep stateSteep (1/10)) = _
    rw [advanceAux, if_pos (by norm_num : ((1/10 : ℝ) - 1/10) ≤ 0)]
  show advanceAux meshSteep paramsSteep (1+1) (1/10) stateSteep = _
  rw [advanceAux, if_neg (by norm_num : ¬ ((1/10 : ℝ) ≤ 0)),
    if_neg (show ¬ (dtMax meshSteep paramsSteep stateSteep.depth ≤ 0) by
      rw [steep_dtMax]; norm_num)]
  simp only [hmin, hrec]
  norm_num

/-- Initial total volume of the counterexample. -/
theorem steep_totalVolume_init : totalVolume meshSteep stateSteep.depth = 1 := by
  rw [totalVolume, Fin.sum_univ_three]
  norm_num [stateSteep, meshSteep]

/-- Final total volume of the counterexample: 11/10, volume was created by
the clamp. -/
theorem steep_totalVolume_final :
    totalVolume meshSteep (advanceAux meshSteep paramsSteep 2 (1/10) stateSteep).state.depth
      = 11/10 := by
  rw [steep_advance_eq]
  show totalVolume meshSteep (substep meshSteep paramsSteep stateSteep (1/10)).depth = 11/10
  rw [totalVolume, Fin.sum_univ_three, steep_substep_depth0, steep_substep_depth1,
    steep_substep_depth2]
  norm_num [meshSteep]

/-- C3 counterexample: a fully CLOSED-boundary mesh, zero infiltration
capacity and constant (zero) rainfall over which an advance of 1/10 s changes
the total volume from 1 to 11/10, refuting the claimed exact budget: the
clamp turns a -1/10 m deficit into created volume. -/
theorem mass_conservation_cex :
    meshSteep.status 0 ≠ NodeStatus.fixedValue ∧
    meshSteep.status 1 ≠ NodeStatus.fixedValue ∧
    meshSteep.status 2 ≠ NodeStatus.fixedValue ∧
    paramsSteep.infiltCap = 0 ∧
    (advanceAux meshSteep paramsSteep 2 (1/10) stateSteep).remaining = 0 ∧
    totalVolume meshSteep (advanceAux meshSteep paramsSteep 2 (1/10) stateSteep).state.depth ≠
      totalVolume meshSteep stateSteep.depth +
        paramsSteep.rain * coreArea meshSteep * (1/10) := by
  refine ⟨by decide, by decide, by decide, rfl, ?_, ?_⟩
  · rw [steep_advance_eq]
  · rw [steep_totalVolume_final, steep_totalVolume_init,
      show paramsSteep.rain = 0 from rfl]
    norm_num

/-- Pre-clamp update on the all-dry two-core mesh with the witness parameters
is exactly zero. -/
theorem meshTwoCore_zero_rhs (s : State 2 1) (hd : ∀ i, s.depth i = 0) (dt : ℝ) (i : Fin 2) :
    s.depth i + dt * (paramsW.rain - infiltration paramsW (s.depth i) -
      flowDiv meshTwoCore (fun e => linkDischarge meshTwoCore paramsW s.depth e) i) = 0 := by
  have hq : ∀ e : Fin 1, linkDischarge meshTwoCore paramsW s.depth e = 0 := by
    intro e
    simp [linkDischarge, waterSlope, meshTwoCore, hd]
  have hI : infiltration paramsW 0 = 0 := by
    simp [infiltration, paramsW]
  have hdiv : flowDiv meshTwoCore (fun e => linkDischarge meshTwoCore paramsW s.depth e) i = 0 := by
    simp only [flowDiv, hq, mul_zero, Finset.sum_const_zero, zero_div]
  rw [hd i, hI, hdiv, show paramsW.rain = 0 from rfl]
  ring

/-- The concrete two-core run engages no clamp. -/
theorem noClampRun_W : noClampRun meshTwoCore paramsW 2 1 (initState meshTwoCore) := by
  intro _hcond
  constructor
  · intro i _
    rw [meshTwoCore_zero_rhs (initState meshTwoCore) (fun _ => rfl) _ i]
  · intro hcond2
    exfalso
    have hr2 : (1:ℝ) - min (dtMax meshTwoCore paramsW (initState meshTwoCore).depth) 1 = 0 := by
      rw [dtMax_meshTwoCore_paramsW _ rfl rfl]
      norm_num
    rw [hr2] at hcond2
    exact absurd hcond2.1 (by norm_num)

/-- C3 witness: the amended mass-conservation theorem applied to a concrete
clamp-free run on the fully core two-node mesh. -/
theorem mass_conservation_closed_witness :
    totalVolume meshTwoCore
        (advanceAux meshTwoCore paramsW 2 1 (initState meshTwoCore)).state.depth =
      totalVolume meshTwoCore (initState meshTwoCore).depth +
        paramsW.rain * coreArea meshTwoCore *
          (1 - (advanceAux meshTwoCore paramsW 2 1 (initState meshTwoCore)).remaining) :=
  mass_conservation_closed meshTwoCore paramsW 2 1 (initState meshTwoCore)
    (fun i => by simp [meshTwoCore])
    rfl
    (fun i _ => by norm_num [meshTwoCore])
    noClampRun_W

/-- Bracketing bounds for `exp (-3)`. -/
theorem exp_neg_three_bounds : (1/21 : ℝ) < Real.exp (-3) ∧ Real.exp (-3) < (1/19 : ℝ) := by
  have h1 := Real.exp_one_gt_d9
  have h2 := Real.exp_one_lt_d9
  have he3 : Real.exp 3 = Real.exp 1 * Real.exp 1 * Real.exp 1 := by
    rw [← Real.exp_add, ← Real.exp_add]
    norm_num
  have hlo : (19:ℝ) < Real.exp 3 := by rw [he3]; nlinarith
  have hhi : Real.exp 3 < 21 := by rw [he3]; nlinarith
  have hpos : (0:ℝ) < Real.exp 3 := Real.exp_pos 3
  constructor
  · rw [Real.exp_neg]
    have := inv_strictAnti₀ hpos hhi
    calc (1/21 : ℝ) = 21⁻¹ := by norm_num
    _ < (Real.exp 3)⁻¹ := this
  · rw [Real.exp_neg]
    have := inv_strictAnti₀ (by norm_num : (0:ℝ) < 19) hlo
    calc (Real.exp 3)⁻¹ < 19⁻¹ := this
    _ = (1/19 : ℝ) := by norm_num

/-- C5: the infiltration computed during a sub-step is exactly
`I_c * (1 - exp (-H / H_i))` (both as a standalone law and as it enters the
core-node depth update), and at depth `3 * H_i` it lies within 1% of
`0.95 * I_c`. -/
theorem infiltration_saturation :
    (∀ (p : Params) (h : ℝ),
      infiltration p h = p.infiltCap * (1 - Real.exp (-h / p.infiltDepthScale))) ∧
    (∀ (nN nL : ℕ) (m : Mesh nN nL) (p : Params) (s : State nN nL) (dt : ℝ) (i : Fin nN),
      m.status i = NodeStatus.core →
      (substep m p s dt).depth i =
        max 0 (s.depth i + dt * (p.rain -
          p.infiltCap * (1 - Real.exp (-s.depth i / p.infiltDepthScale)) -
          flowDiv m (fun e => linkDischarge m p s.depth e) i))) ∧
    (∀ p : Params, 0 < p.infiltDepthScale → 0 ≤ p.infiltCap →
      |infiltration p (3 * p.infiltDepthScale) - 0.95 * p.infiltCap| ≤
        0.01 * (0.95 * p.infiltCap)) := by
  refine ⟨fun p h => rfl, ?_, ?_⟩
  · intro nN nL m p s dt i hc
    dsimp only [substep]
    rw [if_pos hc, infiltration]
  · intro p hscale hcap
    have h3 : -(3 * p.infiltDepthScale) / p.infiltDepthScale = -3 := by
      field_simp
    rw [infiltration, h3]
    have hfac : p.infiltCap * (1 - Real.exp (-3)) - 0.95 * p.infiltCap =
        p.infiltCap * ((1 - Real.exp (-3)) - 0.95) := by ring
    rw [hfac, abs_mul, abs_of_nonneg hcap]
    have hb := exp_neg_three_bounds
    have habs : |(1 - Real.exp (-3)) - 0.95| ≤ (0.0095 : ℝ) := by
      rw [abs_le]
      constructor
      · nlinarith [hb.1, hb.2]
      · nlinarith [hb.1, hb.2]
    calc p.infiltCap * |(1 - Real.exp (-3)) - 0.95| ≤ p.infiltCap * 0.0095 :=
        mul_le_mul_of_nonneg_left habs hcap
    _ = 0.01 * (0.95 * p.infiltCap) := by ring

/-- C5 witness: the saturation bound instantiated at capacity 1 and
characteristic depth 2. -/
theorem infiltration_saturation_witness :
    (0:ℝ) < 2 ∧ (0:ℝ) ≤ 1 ∧
    |infiltration (Params.mk 0 1 2 1 1 (1/5) 1) (3 * 2) - 0.95 * 1| ≤ 0.01 * (0.95 * 1) := by
  refine ⟨by norm_num, by norm_num, ?_⟩
  have h := infiltration_saturation.2.2 (Params.mk 0 1 2 1 1 (1/5) 1)
    (by norm_num) (by norm_num)
  simpa using h

/-- C6: whenever an inductive invariant of the run gives a uniform positive
lower bound on the stability-limited step, the sub-stepping loop of
`advance(global_dt)` terminates within `global_dt / delta` iterations:
it drives the remaining interval exactly to zero, the completed sub-step
sizes sum to exactly `global_dt`, and no error is raised. -/
theorem advance_terminates {nN nL : ℕ} (m : Mesh nN nL) (p : Params)
    (Inv : State nN nL → Prop) (δ : ℝ) :
    ∀ (fuel : ℕ) (T : ℝ) (s : State nN nL),
      0 < δ → 0 ≤ T → Inv s →
      (∀ s' dt, Inv s' → 0 < dt → dt ≤ dtMax m p s'.depth → Inv (substep m p s' dt)) →
      (∀ s', Inv s' → δ ≤ dtMax m p s'.depth) →
      T ≤ δ * fuel →
      (advanceAux m p fuel T s).remaining = 0 ∧
        (advanceAux m p fuel T s).steps.sum = T ∧
        (advanceAux m p fuel T s).errored = false := by
  intro fuel
  induction fuel with
  | zero =>
    intro T s hd hT hs hstep hbound hfuel
    have hTz : T = 0 := le_antisymm (by simpa using hfuel) hT
    simp [advanceAux, hTz]
  | succ n ih =>
    intro T s hd hT hs hstep hbound hfuel
    by_cases hT0 : T ≤ 0
    · have hTz : T = 0 := le_antisymm hT0 hT
      simp [advanceAux, hT0, hTz]
    · have hdm : δ ≤ dtMax m p s.depth := hbound s hs
      have hdtpos : 0 < dtMax m p s.depth := lt_of_lt_of_le hd hdm
      have hnot : ¬ dtMax m p s.depth ≤ 0 := not_le_of_lt hdtpos
      have hdpos : 0 < min (dtMax m p s.depth) (T : ℝ) :=
        lt_min hdtpos (lt_of_not_le hT0)
      have hdle : min (dtMax m p s.depth) T ≤ dtMax m p s.depth := min_le_left _ _
      have hInv2 : Inv (substep m p s (min (dtMax m p s.depth) T)) :=
        hstep s _ hs hdpos hdle
      have hT2 : 0 ≤ T - min (dtMax m p s.depth) T := by
        have := min_le_right (dtMax m p s.depth) T
        linarith
      have hfuel2 : T - min (dtMax m p s.depth) T ≤ δ * n := by
        rcases le_total (dtMax m p s.depth) T with hle | hle
        · have hmeq : min (dtMax m p s.depth) T = dtMax m p s.depth := min_eq_left hle
          rw [hmeq]
          have hcast : (δ : ℝ) * (n + 1 : ℕ) = δ * n + δ := by
            push_cast
            ring
          rw [hcast] at hfuel
          linarith
        · have hmeq : min (dtMax m p s.depth) T = T := min_eq_right hle
          rw [hmeq]
          have hnn : (0:ℝ) ≤ δ * n := mul_nonneg (le_of_lt hd) (Nat.cast_nonneg n)
          linarith
      have hrec := ih (T - min (dtMax m p s.depth) T)
          (substep m p s (min (dtMax m p s.depth) T)) hd hT2 hInv2 hstep hbound hfuel2
      simp only [advanceAux, hT0, hnot, if_false, List.sum_cons]
      refine ⟨hrec.1, ?_, hrec.2.2⟩
      rw [hrec.2.1]
      ring

/-- C6 witness: a two-sub-step run on the all-dry two-core mesh, where the
depth floor makes the stability bound constantly 1, terminates with its step
sizes summing to the full interval. -/
theorem advance_terminates_witness :
    (advanceAux meshTwoCore paramsW 2 2 (initState meshTwoCore)).remaining = 0 ∧
    (advanceAux meshTwoCore paramsW 2 2 (initState meshTwoCore)).steps.sum = 2 ∧
    (advanceAux meshTwoCore paramsW 2 2 (initState meshTwoCore)).errored = false :=
  advance_terminates meshTwoCore paramsW (fun s' => ∀ i, s'.depth i = 0) 1 2 2
    (initState meshTwoCore) (by norm_num) (by norm_num) (fun _ => rfl)
    (fun s' dt hz _ _ => substep_meshTwoCore_zero s' hz dt)
    (fun s' hz => le_of_eq (dtMax_meshTwoCore_paramsW s'.depth (hz 0) (hz 1)).symm)
    (by norm_num)

/-- C7: construction fails with a ConfigurationError exactly when the
stability factor exceeds 1 or is non-positive, or the roughness or velocity
scale is non-positive; for all other parameters it succeeds and returns the
zero-initialized solver, and the defaulted constructor uses alpha 0.2 and
infiltration capacity 0. -/
theorem construction_validation :
    (∀ (nN nL : ℕ) (m : Mesh nN nL) (p : Params),
      makeSolver m p = Except.error ConfigurationError.invalidParameters ↔
        (1 < p.alpha ∨ p.alpha ≤ 0 ∨ p.roughness ≤ 0 ∨ p.velScale ≤ 0)) ∧
    (∀ (nN nL : ℕ) (m : Mesh nN nL) (p : Params),
      ¬(1 < p.alpha ∨ p.alpha ≤ 0 ∨ p.roughness ≤ 0 ∨ p.velScale ≤ 0) →
        makeSolver m p = Except.ok (Solver.mk p (initState m))) ∧
    (∀ r n u : ℝ, (Params.withDefaults r n u).alpha = 0.2 ∧
      (Params.withDefaults r n u).infiltCap = 0) := by
  refine ⟨?_, ?_, ?_⟩
  · intro nN nL m p
    constructor
    · intro h
      by_contra hbad
      rw [makeSolver, if_neg hbad] at h
      exact Except.noConfusion h
    · intro hcond
      rw [makeSolver, if_pos hcond]
  · intro nN nL m p h
    rw [makeSolver, if_neg h]
  · intro r n u
    exact ⟨rfl, rfl⟩

/-- C7 witness: default parameters are accepted and a stability factor of 2
is rejected, on a concrete mesh. -/
theorem construction_validation_witness :
    makeSolver meshTwoCore (Params.withDefaults 0 1 1) =
      Except.ok (Solver.mk (Params.withDefaults 0 1 1) (initState meshTwoCore)) ∧
    makeSolver meshTwoCore (Params.mk 0 0 1 1 1 2 1) =
      Except.error ConfigurationError.invalidParameters := by
  constructor
  · apply construction_validation.2.1
    rw [not_or, not_or, not_or]
    refine ⟨?_, ?_, ?_, ?_⟩
    · show ¬ ((1:ℝ) < defaultAlpha)
      rw [defaultAlpha]
      norm_num
    · show ¬ (defaultAlpha ≤ (0:ℝ))
      rw [defaultAlpha]
      norm_num
    · show ¬ ((1:ℝ) ≤ 0)
      norm_num
    · show ¬ ((1:ℝ) ≤ 0)
      norm_num
  · exact (construction_validation.1 2 1 meshTwoCore (Params.mk 0 0 1 1 1 2 1)).mpr
      (Or.inl (show (1:ℝ) < 2 by norm_num))

/-- With a positive depth floor, positive friction parameters, a positive
stability factor and a positive shortest active link, the stability-limited
step is strictly positive. -/
theorem dtMax_pos {nN nL : ℕ} (m : Mesh nN nL) (p : Params) (H : Fin nN → ℝ)
    (hfl : 0 < p.depthFloor) (hn : 0 < p.roughness) (hu : 0 < p.velScale)
    (ha : 0 < p.alpha) (hL : 0 < minActiveLinkLength m) :
    0 < dtMax m p H := by
  have hHm : 0 < max (coreMaxDepth m H) p.depthFloor := lt_max_of_lt_right hfl
  have h73 : 0 < (max (coreMaxDepth m H) p.depthFloor) ^ ((7:ℝ)/3) :=
    Real.rpow_pos_of_pos hHm _
  have hnu : 0 < nu p := mul_pos (pow_pos hn 2) hu
  have hD : 0 < (max (coreMaxDepth m H) p.depthFloor) ^ ((7:ℝ)/3) / nu p := div_pos h73 hnu
  rw [dtMax]
  exact div_pos (mul_pos ha (pow_pos hL 2)) (mul_pos (by norm_num) hD)

/-- Under the conditions of `dtMax_pos` the defensive check never fires. -/
theorem advanceAux_never_errors {nN nL : ℕ} (m : Mesh nN nL) (p : Params)
    (hfl : 0 < p.depthFloor) (hn : 0 < p.roughness) (hu : 0 < p.velScale)
    (ha : 0 < p.alpha) (hL : 0 < minActiveLinkLength m) (fuel : ℕ) :
    ∀ (r : ℝ) (s : State nN nL), (advanceAux m p fuel r s).errored = false := by
  induction fuel with
  | zero => intro r s; simp [advanceAux]
  | succ n ih =>
    intro r s
    by_cases hr : r ≤ 0
    · simp [advanceAux, hr]
    · have hnot : ¬ dtMax m p s.depth ≤ 0 :=
        not_le_of_lt (dtMax_pos m p s.depth hfl hn hu ha hL)
      simp only [advanceAux, hr, hnot, if_false]
      exact ih _ _

/-- C8: for a completed-or-raising call, the loop raises the instability
error exactly when the stability bound computed from the current (last
valid) state is degenerate (`dt_max ≤ 0`, the real-arithmetic rendering of
non-finite-or-non-positive) with time still remaining; with a positive depth
floor and positive parameters no state ever raises; and the returned fields
are always exactly the fold of the completed sub-steps over the initial
state, so no partial sub-step is applied on failure. -/
theorem advance_error_policy :
    (∀ (nN nL : ℕ) (m : Mesh nN nL) (p : Params) (fuel : ℕ) (r : ℝ) (s : State nN nL),
      (advanceAux m p fuel r s).remaining = 0 ∨ (advanceAux m p fuel r s).errored = true →
      ((advanceAux m p fuel r s).errored = true ↔
        (dtMax m p (advanceAux m p fuel r s).state.depth ≤ 0 ∧
          0 < (advanceAux m p fuel r s).remaining))) ∧
    (∀ (nN nL : ℕ) (m : Mesh nN nL) (p : Params),
      0 < p.depthFloor → 0 < p.roughness → 0 < p.velScale → 0 < p.alpha →
      0 < minActiveLinkLength m →
      ∀ (fuel : ℕ) (r : ℝ) (s : State nN nL), (advanceAux m p fuel r s).errored = false) ∧
    (∀ (nN nL : ℕ) (m : Mesh nN nL) (p : Params) (fuel : ℕ) (r : ℝ) (s : State nN nL),
      (advanceAux m p fuel r s).state =
        (advanceAux m p fuel r s).steps.foldl (substep m p) s) := by
  refine ⟨?_, ?_, ?_⟩
  · intro nN nL m p fuel
    induction fuel with
    | zero =>
      intro r s h
      simp only [advanceAux] at h ⊢
      rcases h with h | h
      · simp [h]
      · exact absurd h (by simp)
    | succ n ih =>
      intro r s h
      by_cases hr : r ≤ 0
      · have hr2 : ¬ (0 < r) := not_lt.mpr hr
        simp [advanceAux, hr, hr2]
      · by_cases hdt : dtMax m p s.depth ≤ 0
        · simp [advanceAux, hr, hdt, lt_of_not_le hr]
        · simp only [advanceAux, hr, hdt, if_false] at h ⊢
          exact ih _ _ h
  · intro nN nL m p hfl hn hu ha hL fuel r s
    exact advanceAux_never_errors m p hfl hn hu ha hL fuel r s
  · intro nN nL m p fuel r s
    exact advanceAux_state_foldl m p fuel r s

/-- A zero depth floor on a dry domain degenerates the stability bound and
triggers the defensive error: the state is returned untouched. -/
theorem advanceErr_eval :
    advanceAux meshTwoCore paramsErr 1 1 (initState meshTwoCore) =
      AdvanceResult.mk (initState meshTwoCore) 1 true [] [] := by
  have hdtz : dtMax meshTwoCore paramsErr (initState meshTwoCore).depth ≤ 0 := by
    rw [dtMax, coreMaxDepth_meshTwoCore]
    have hm : max (max ((initState meshTwoCore).depth 0)
        (max ((initState meshTwoCore).depth 1) 0)) paramsErr.depthFloor = 0 := by
      show max (max (0:ℝ) (max 0 0)) 0 = 0
      norm_num
    rw [hm, Real.zero_rpow (by norm_num : ((7:ℝ)/3) ≠ 0)]
    norm_num
  show advanceAux meshTwoCore paramsErr (0+1) 1 (initState meshTwoCore) = _
  rw [advanceAux, if_neg (by norm_num : ¬ ((1:ℝ) ≤ 0)), if_pos hdtz]

/-- C8 witness: the error-policy theorem applied to a concrete raising run
(zero depth floor) and to a concrete healthy run. -/
theorem advance_error_policy_witness :
    ((advanceAux meshTwoCore paramsErr 1 1 (initState meshTwoCore)).errored = true ↔
      (dtMax meshTwoCore paramsErr
          (advanceAux meshTwoCore paramsErr 1 1 (initState meshTwoCore)).state.depth ≤ 0 ∧
        0 < (advanceAux meshTwoCore paramsErr 1 1 (initState meshTwoCore)).remaining)) ∧
    (advanceAux meshTwoCore paramsErr 1 1 (initState meshTwoCore)).errored = true ∧
    (advanceAux meshTwoCore paramsErr 1 1 (initState meshTwoCore)).state =
      initState meshTwoCore ∧
    (advanceAux meshTwoCore paramsW 2 1 (initState meshTwoCore)).errored = false ∧
    (advanceAux meshTwoCore paramsW 2 1 (initState meshTwoCore)).state =
      (advanceAux meshTwoCore paramsW 2 1 (initState meshTwoCore)).steps.foldl
        (substep meshTwoCore paramsW) (initState meshTwoCore) := by
  refine ⟨?_, ?_, ?_, ?_, ?_⟩
  · exact advance_error_policy.1 2 1 meshTwoCore paramsErr 1 1 (initState meshTwoCore)
      (Or.inr (by rw [advanceErr_eval]))
  · rw [advanceErr_eval]
  · rw [advanceErr_eval]
  · exact advance_error_policy.2.1 2 1 meshTwoCore paramsW
      (show (0:ℝ) < 1 by norm_num) (show (0:ℝ) < 1 by norm_num)
      (show (0:ℝ) < 1 by norm_num) (show (0:ℝ) < 1/2 by norm_num)
      (by rw [minActiveLinkLength_meshTwoCore]; norm_num) 2 1 (initState meshTwoCore)
  · exact advance_error_policy.2.2 2 1 meshTwoCore paramsW 2 1 (initState meshTwoCore)

/-- Two parameter sets with the same lumped friction product and the same
remaining fields drive the sub-stepping loop identically. -/
theorem advanceAux_congr {nN nL : ℕ} (m : Mesh nN nL) (p₁ p₂ : Params)
    (hnu : p₁.roughness ^ 2 * p₁.velScale = p₂.roughness ^ 2 * p₂.velScale)
    (hrain : p₁.rain = p₂.rain) (hic : p₁.infiltCap = p₂.infiltCap)
    (hsc : p₁.infiltDepthScale = p₂.infiltDepthScale)
    (hal : p₁.alpha = p₂.alpha) (hfl : p₁.depthFloor = p₂.depthFloor) :
    ∀ (fuel : ℕ) (r : ℝ) (s : State nN nL),
      advanceAux m p₁ fuel r s = advanceAux m p₂ fuel r s := by
  have hnu2 : nu p₁ = nu p₂ := by rw [nu, nu, hnu]
  have hq : ∀ (H : Fin nN → ℝ) (e : Fin nL),
      linkDischarge m p₁ H e = linkDischarge m p₂ H e := by
    intro H e
    rw [linkDischarge, linkDischarge, hnu2]
  have hi : ∀ h : ℝ, infiltration p₁ h = infiltration p₂ h := by
    intro h
    rw [infiltration, infiltration, hic, hsc]
  have hsub : ∀ (s : State nN nL) (dt : ℝ), substep m p₁ s dt = substep m p₂ s dt := by
    intro s dt
    have hdiv : (fun e => linkDischarge m p₁ s.depth e) =
        (fun e => linkDischarge m p₂ s.depth e) := funext (hq s.depth)
    rw [substep, substep, hdiv]
    congr 1
    funext i
    rw [hrain, hi]
  have hdt : ∀ H : Fin nN → ℝ, dtMax m p₁ H = dtMax m p₂ H := by
    intro H
    rw [dtMax, dtMax, hal, hfl, hnu2]
  intro fuel
  induction fuel with
  | zero => intro r s; rfl
  | succ n ih =>
    intro r s
    by_cases hr : r ≤ 0
    · simp [advanceAux, hr]
    · by_cases hd : dtMax m p₁ s.depth ≤ 0
      · have hd2 : dtMax m p₂ s.depth ≤ 0 := by rw [← hdt]; exact hd
        simp [advanceAux, hr, hd, hd2]
      · have hd2 : ¬ dtMax m p₂ s.depth ≤ 0 := by rw [← hdt]; exact hd
        simp only [advanceAux, hr, hd, hd2, if_false]
        rw [hdt, hsub, ih]

/-- C10: the solver's behaviour depends on the roughness and the velocity
scale only through the product `n^2 * u_c`: two solvers over the same mesh
whose parameters agree except for roughness/velocity-scale with equal lumped
product produce identical results for every advance call and for every
sequence of advance calls (with per-call rainfall settings). -/
theorem lumped_friction_parameter :
    ∀ (nN nL : ℕ) (m : Mesh nN nL) (p₁ p₂ : Params),
      p₁.roughness ^ 2 * p₁.velScale = p₂.roughness ^ 2 * p₂.velScale →
      p₁.rain = p₂.rain → p₁.infiltCap = p₂.infiltCap →
      p₁.infiltDepthScale = p₂.infiltDepthScale →
      p₁.alpha = p₂.alpha → p₁.depthFloor = p₂.depthFloor →
      (∀ (fuel : ℕ) (r : ℝ) (s : State nN nL),
        advanceAux m p₁ fuel r s = advanceAux m p₂ fuel r s) ∧
      (∀ (calls : List (ℕ × ℝ × ℝ)) (s : State nN nL),
        runCalls m p₁ calls s = runCalls m p₂ calls s) := by
  intro nN nL m p₁ p₂ hnu hrain hic hsc hal hfl
  refine ⟨advanceAux_congr m p₁ p₂ hnu hrain hic hsc hal hfl, ?_⟩
  intro calls
  induction calls with
  | nil => intro s; rfl
  | cons c cs ih =>
    intro s
    rw [runCalls, runCalls, List.foldl_cons, List.foldl_cons]
    have hstep := advanceAux_congr m
      (Params.mk c.2.1 p₁.infiltCap p₁.infiltDepthScale p₁.roughness p₁.velScale
        p₁.alpha p₁.depthFloor)
      (Params.mk c.2.1 p₂.infiltCap p₂.infiltDepthScale p₂.roughness p₂.velScale
        p₂.alpha p₂.depthFloor)
      hnu rfl hic hsc hal hfl c.1 c.2.2 s
    rw [hstep]
    exact ih _

/-- C10 witness: roughness 2 with velocity scale 1 versus roughness 1 with
velocity scale 4 (equal lumped product 4) give the same result on a concrete
call sequence. -/
theorem lumped_friction_parameter_witness :
    runCalls meshTwoCore (Params.mk 0 0 1 2 1 (1/2) 1) [(1, 0, 1)] (initState meshTwoCore) =
      runCalls meshTwoCore (Params.mk 0 0 1 1 4 (1/2) 1) [(1, 0, 1)] (initState meshTwoCore) :=
  (lumped_friction_parameter 2 1 meshTwoCore
      (Params.mk 0 0 1 2 1 (1/2) 1) (Params.mk 0 0 1 1 4 (1/2) 1)
      (show ((2:ℝ)^2 * 1 : ℝ) = 1^2 * 4 by norm_num) rfl rfl rfl rfl rfl).2
    [(1, 0, 1)] (initState meshTwoCore)

/-- Two states with the same per-node depths and per-link discharges are
equal. -/
theorem stateExt {nN nL : ℕ} (s t : State nN nL) (hd : ∀ i, s.depth i = t.depth i)
    (hq : ∀ e, s.q e = t.q e) : s = t := by
  cases s with
  | mk d q =>
    cases t with
    | mk d' q' =>
      simp only [State.mk.injEq]
      exact ⟨funext hd, funext hq⟩

/-- With zero rainfall a sub-step fixes the quiescent all-dry state: the
upwind depth of every link is zero, so no discharge or divergence arises, and
infiltration vanishes at zero depth. -/
theorem substep_initState {nN nL : ℕ} (m : Mesh nN nL) (p : Params) (hrain : p.rain = 0)
    (dt : ℝ) : substep m p (initState m) dt = initState m := by
  have hq : ∀ e, linkDischarge m p (initState m).depth e = 0 := by
    intro e
    rw [linkDischarge]
    split
    · have hup : upwindDepth m (initState m).depth e = 0 := by
        rw [upwindDepth]
        split
        · rfl
        · rfl
      rw [hup, mul_zero]
    · rfl
  have hI : infiltration p 0 = 0 := by
    simp [infiltration, Real.exp_zero]
  have hdiv0 : ∀ i, flowDiv m (fun e => linkDischarge m p (initState m).depth e) i = 0 := by
    intro i
    simp only [flowDiv, hq, mul_zero, Finset.sum_const_zero, zero_div]
  refine stateExt _ _ ?_ ?_
  · intro i
    dsimp only [substep]
    split
    · rw [show (initState m).depth i = 0 from rfl, hI, hdiv0 i, hrain]
      simp
    · rfl
  · intro e
    exact hq e

/-- With zero rainfall every advance call fixes the quiescent state. -/
theorem advance_zeroState {nN nL : ℕ} (m : Mesh nN nL) (p : Params) (hrain : p.rain = 0) :
    ∀ (fuel : ℕ) (r : ℝ), (advanceAux m p fuel r (initState m)).state = initState m := by
  intro fuel
  induction fuel with
  | zero => intro r; rfl
  | succ n ih =>
    intro r
    by_cases hr : r ≤ 0
    · simp [advanceAux, hr]
    · by_cases hd : dtMax m p (initState m).depth ≤ 0
      · simp [advanceAux, hr, hd]
      · simp only [advanceAux, hr, hd, if_false]
        rw [substep_initState m p hrain]
        exact ih _

/-- C9 amended: step-subdivision invariance holds exactly for quiescent
forcing (zero rainfall from the zero-initialized state, where the per-step
derivative vanishes identically); with state-dependent forcing the two
schedules differ by genuine truncation terms, see the counterexample. -/
theorem step_subdivision_quiescent :
    ∀ (nN nL : ℕ) (m : Mesh nN nL) (p : Params), p.rain = 0 →
      ∀ (f1 f2 f3 : ℕ) (T : ℝ),
        (advanceAux m p f1 T (initState m)).state =
          (advanceAux m p f3 (T / 2)
            ((advanceAux m p f2 (T / 2) (initState m)).state)).state := by
  intro nN nL m p hrain f1 f2 f3 T
  have hz := advance_zeroState m p hrain
  rw [hz f1 T, hz f2 (T / 2), hz f3 (T / 2)]

/-- C9 witness: the quiescent subdivision identity on the concrete two-core
mesh with `T = 1`. -/
theorem step_subdivision_quiescent_witness :
    (advanceAux meshTwoCore paramsW 2 1 (initState meshTwoCore)).state =
      (advanceAux meshTwoCore paramsW 2 (1 / 2)
        ((advanceAux meshTwoCore paramsW 2 (1 / 2) (initState meshTwoCore)).state)).state :=
  step_subdivision_quiescent 2 1 meshTwoCore paramsW rfl 2 2 2 1

/-- The link to the high fixed-value boundary never carries discharge: the
boundary side is upwind and its depth is held at zero. -/
theorem HB_q (s : State 2 1) (h10 : s.depth 0 ≤ 10) (hs1 : s.depth 1 = 0) :
    ∀ e : Fin 1, linkDischarge meshHighBoundary paramsInf s.depth e = 0 := by
  intro e
  have he : e = 0 := Fin.fin_one_eq_zero e
  subst he
  rw [linkDischarge, if_pos (show meshHighBoundary.linkActive 0 = true by decide)]
  rw [upwindDepth]
  rw [if_pos]
  · rw [show meshHighBoundary.linkTail 0 = (1 : Fin 2) from rfl, hs1]
    ring
  · show meshHighBoundary.elev 0 + s.depth 0 ≤ meshHighBoundary.elev 1 + s.depth 1
    rw [hs1]
    show (0:ℝ) + s.depth 0 ≤ 10 + 0
    linarith

/-- Maximum core depth on the high-boundary mesh. -/
theorem HB_coreMax (H : Fin 2 → ℝ) :
    coreMaxDepth meshHighBoundary H = max (H 0) 0 := by
  simp [coreMaxDepth, meshHighBoundary, Mesh.isCore, List.finRange]

/-- Shortest active link length on the high-boundary mesh. -/
theorem HB_minLen : minActiveLinkLength meshHighBoundary = 2 := by
  simp [minActiveLinkLength, meshHighBoundary, Mesh.linkActive, List.finRange]

/-- Stability-limited step on the high-boundary mesh while the core depth
stays below the depth floor 1. -/
theorem HB_dtMax (H : Fin 2 → ℝ) (h1 : H 0 ≤ 1) :
    dtMax meshHighBoundary paramsInf H = 2/5 := by
  rw [dtMax, HB_coreMax, HB_minLen]
  have hm : max (max (H 0) 0) paramsInf.depthFloor = 1 := by
    show max (max (H 0) 0) 1 = 1
    rw [max_eq_right (by simp [h1] : max (H 0) 0 ≤ 1)]
  rw [hm, Real.one_rpow]
  norm_num [paramsInf, nu]

/-- One sub-step on the high-boundary mesh: the core cell evolves by
infiltration alone. -/
theorem HB_substep (s : State 2 1) (dt : ℝ) (h10 : s.depth 0 ≤ 10)
    (hs1 : s.depth 1 = 0) :
    (substep meshHighBoundary paramsInf s dt).depth 0 =
        max 0 (s.depth 0 - dt * (1 - Real.exp (-s.depth 0))) ∧
      (substep meshHighBoundary paramsInf s dt).depth 1 = 0 ∧
      ∀ e, (substep meshHighBoundary paramsInf s dt).q e = 0 := by
  have hq := HB_q s h10 hs1
  have hdiv : flowDiv meshHighBoundary
      (fun e => linkDischarge meshHighBoundary paramsInf s.depth e) 0 = 0 := by
    simp only [flowDiv, hq, mul_zero, Finset.sum_const_zero, zero_div]
  refine ⟨?_, ?_, ?_⟩
  · dsimp only [substep]
    rw [if_pos (show meshHighBoundary.status 0 = NodeStatus.core by decide), hdiv]
    rw [infiltration]
    show max 0 (s.depth 0 + dt * (0 - 1 * (1 - Real.exp (-s.depth 0 / 1)) - 0)) = _
    norm_num
    congr 1
    ring
  · dsimp only [substep]
    rw [if_neg (show ¬ meshHighBoundary.status 1 = NodeStatus.core by decide)]
    exact hs1
  · intro e
    exact hq e

/-- A single complete advance of size `T ≤ 1/5` on the high-boundary mesh,
starting between half a metre and one metre of water, performs exactly one
clamp-free sub-step of size `T`. -/
theorem HB_advance (s : State 2 1) (T : ℝ) (hT : 0 < T) (hT5 : T ≤ 1/5)
    (h05 : 1/2 ≤ s.depth 0) (h1 : s.depth 0 ≤ 1) (hs1 : s.depth 1 = 0) :
    (advanceAux meshHighBoundary paramsInf 2 T s).state.depth 0 =
        s.depth 0 - T * (1 - Real.exp (-s.depth 0)) ∧
      (advanceAux meshHighBoundary paramsInf 2 T s).state.depth 1 = 0 := by
  have h0 : 0 ≤ s.depth 0 := le_trans (by norm_num) h05
  have hdt := HB_dtMax s.depth h1
  have hmin : min (dtMax meshHighBoundary paramsInf s.depth) T = T :=
    min_eq_right (by rw [hdt]; linarith)
  have hsub := HB_substep s T (le_trans h1 (by norm_num)) hs1
  have hexp : Real.exp (-s.depth 0) ≤ 1 := by
    rw [show (1:ℝ) = Real.exp 0 from (Real.exp_zero).symm]
    exact Real.exp_le_exp.mpr (by linarith)
  have hpos : 0 ≤ s.depth 0 - T * (1 - Real.exp (-s.depth 0)) := by
    have hee := Real.exp_pos (-s.depth 0)
    have hle : T * (1 - Real.exp (-s.depth 0)) ≤ T * 1 :=
      mul_le_mul_of_nonneg_left (by linarith) (le_of_lt hT)
    linarith
  have hclamp : max 0 (s.depth 0 - T * (1 - Real.exp (-s.depth 0))) =
      s.depth 0 - T * (1 - Real.exp (-s.depth 0)) := max_eq_right hpos
  have hstate : (advanceAux meshHighBoundary paramsInf 2 T s).state =
      substep meshHighBoundary paramsInf s T := by
    show (advanceAux meshHighBoundary paramsInf (1+1) T s).state = _
    rw [advanceAux, if_neg (not_le_of_lt hT), if_neg (by rw [hdt]; norm_num)]
    simp only [hmin]
    show (advanceAux meshHighBoundary paramsInf (0+1) (T - T)
      (substep meshHighBoundary paramsInf s T)).state = _
    rw [advanceAux, if_pos (by linarith : T - T ≤ 0)]
  rw [hstate]
  exact ⟨by rw [hsub.1, hclamp], hsub.2.1⟩

/-- C9 counterexample: on the high-boundary mesh with infiltration (a smooth,
non-stiff setting: the steps are well below the stability bound 2/5), one
advance of 1/5 and two advances of 1/10 from the same state produce
differing core depths: `1 - (1/5)(1-exp(-1))` versus
`b - (1/10)(1-exp(-b))` with `b = 1 - (1/10)(1-exp(-1)) < 1`. -/
theorem step_subdivision_cex :
    (advanceAux meshHighBoundary paramsInf 2 (1/5) stateInf).state.depth 0 ≠
      (advanceAux meshHighBoundary paramsInf 2 (1/10)
        ((advanceAux meshHighBoundary paramsInf 2 (1/10) stateInf).state)).state.depth 0 := by
  have hd0 : stateInf.depth 0 = 1 := rfl
  have hd1 : stateInf.depth 1 = 0 := rfl
  have hXpos : 0 < 1 - Real.exp (-1) := by
    have h := Real.exp_lt_exp.mpr (show (-1:ℝ) < 0 by norm_num)
    rw [Real.exp_zero] at h
    linarith
  have hX1 : 1 - Real.exp (-1) < 1 := by
    have := Real.exp_pos (-1)
    linarith
  have hA := HB_advance stateInf (1/5) (by norm_num) (by norm_num)
    (by rw [hd0]; norm_num) (by rw [hd0]) hd1
  have hB1 := HB_advance stateInf (1/10) (by norm_num) (by norm_num)
    (by rw [hd0]; norm_num) (by rw [hd0]) hd1
  have hb05 : 1/2 ≤ (advanceAux meshHighBoundary paramsInf 2 (1/10) stateInf).state.depth 0 := by
    rw [hB1.1, hd0]
    linarith
  have hb1 : (advanceAux meshHighBoundary paramsInf 2 (1/10) stateInf).state.depth 0 ≤ 1 := by
    rw [hB1.1, hd0]
    linarith
  have hblt : (advanceAux meshHighBoundary paramsInf 2 (1/10) stateInf).state.depth 0 < 1 := by
    rw [hB1.1, hd0]
    linarith
  have hB2 := HB_advance ((advanceAux meshHighBoundary paramsInf 2 (1/10) stateInf).state)
    (1/10) (by norm_num) (by norm_num) hb05 hb1 hB1.2
  intro heq
  rw [hA.1, hB2.1, hB1.1, hd0] at heq
  have hkey : Real.exp (-1) = Real.exp (-(1 - 1/10 * (1 - Real.exp (-1)))) := by
    linarith
  have hinj := Real.exp_eq_exp.mp hkey
  have hb := hblt
  rw [hB1.1, hd0] at hb
  linarith

/-- Bernoulli-type bound: for `0 ≤ b ≤ a` the increment of the 10/3 power
is controlled by the derivative at the upper end. -/
theorem rpow_diff_le (a b : ℝ) (hb : 0 ≤ b) (hab : b ≤ a) :
    a ^ ((10:ℝ)/3) - b ^ ((10:ℝ)/3) ≤ (10/3) * a ^ ((7:ℝ)/3) * (a - b) := by
  have ha : 0 ≤ a := le_trans hb hab
  rcases eq_or_lt_of_le ha with heq | hpos
  · have hb0 : b = 0 := le_antisymm (heq ▸ hab) hb
    rw [← heq, hb0]
    norm_num
  · have ht0 : 0 ≤ b / a := div_nonneg hb (le_of_lt hpos)
    have ht1 : b / a ≤ 1 := (div_le_one hpos).mpr hab
    have hs : (-1 : ℝ) ≤ b / a - 1 := by linarith
    have hp : (1:ℝ) ≤ (10:ℝ)/3 := by norm_num
    have hber := one_add_mul_self_le_rpow_one_add hs hp
    have hround : (1 : ℝ) + (b / a - 1) = b / a := by ring
    rw [hround] at hber
    -- hber : 1 + (10/3) * (b/a - 1) ≤ (b/a) ^ (10/3)
    have hap : (0:ℝ) < a ^ ((10:ℝ)/3) := Real.rpow_pos_of_pos hpos _
    have hmul := mul_le_mul_of_nonneg_left hber (le_of_lt hap)
    have hba : (b / a) ^ ((10:ℝ)/3) = b ^ ((10:ℝ)/3) / a ^ ((10:ℝ)/3) :=
      Real.div_rpow hb (le_of_lt hpos) ((10:ℝ)/3)
    rw [hba] at hmul
    have hcancel : a ^ ((10:ℝ)/3) * (b ^ ((10:ℝ)/3) / a ^ ((10:ℝ)/3)) = b ^ ((10:ℝ)/3) := by
      field_simp
    rw [hcancel] at hmul
    -- hmul : a^(10/3) * (1 + 10/3 * (b/a - 1)) ≤ b^(10/3)
    have hsplit : a ^ ((10:ℝ)/3) * (1 + (10:ℝ)/3 * (b / a - 1)) =
        a ^ ((10:ℝ)/3) + (10:ℝ)/3 * (a ^ ((10:ℝ)/3) / a) * (b - a) := by
      field_simp
      ring
    rw [hsplit] at hmul
    have hdiv : a ^ ((10:ℝ)/3) / a = a ^ ((7:ℝ)/3) := by
      have h7 : a ^ ((7:ℝ)/3) = a ^ ((10:ℝ)/3) / a ^ ((1:ℝ)) := by
        rw [← Real.rpow_sub hpos]
        norm_num
      rw [Real.rpow_one] at h7
      exact h7.symm
    rw [hdiv] at hmul
    linarith


/-- The steady-state depth balances outflow against rainfall. -/
theorem scalar_cHs (R c : ℝ) (hR : 0 < R) (hc : 0 < c) :
    c * ((R/c) ^ ((3:ℝ)/10)) ^ ((10:ℝ)/3) = R := by
  have h1 : ((R/c) ^ ((3:ℝ)/10)) ^ ((10:ℝ)/3) = (R/c) ^ (((3:ℝ)/10) * ((10:ℝ)/3)) :=
    (Real.rpow_mul (le_of_lt (div_pos hR hc)) _ _).symm
  rw [h1, show ((3:ℝ)/10) * ((10:ℝ)/3) = 1 by norm_num, Real.rpow_one]
  field_simp

/-- The scalar stability-limited step is positive. -/
theorem scalarDt_pos (A ε : ℝ) (hA : 0 < A) (hε : 0 < ε) (h : ℝ) : 0 < scalarDt A ε h :=
  div_pos hA (Real.rpow_pos_of_pos (lt_of_lt_of_le hε (le_max_right _ _)) _)

/-- The scalar stability-limited step shrinks as the depth grows. -/
theorem scalarDt_ge (A ε : ℝ) (hA : 0 < A) (hε : 0 < ε) (h B : ℝ) (hhB : h ≤ B) :
    scalarDt A ε B ≤ scalarDt A ε h := by
  have hbase : max (max h 0) ε ≤ max (max B 0) ε :=
    max_le_max (max_le_max hhB le_rfl) le_rfl
  have hpos1 : (0:ℝ) < max (max h 0) ε := lt_of_lt_of_le hε (le_max_right _ _)
  have h1 : (max (max h 0) ε) ^ ((7:ℝ)/3) ≤ (max (max B 0) ε) ^ ((7:ℝ)/3) :=
    Real.rpow_le_rpow (le_of_lt hpos1) hbase (by norm_num)
  have hpos2 : (0:ℝ) < (max (max h 0) ε) ^ ((7:ℝ)/3) := Real.rpow_pos_of_pos hpos1 _
  unfold scalarDt
  exact div_le_div_of_nonneg_left (le_of_lt hA) hpos2 h1

/-- The depth floor caps the scalar stability-limited step. -/
theorem scalarDt_cap (A ε : ℝ) (hA : 0 < A) (hε : 0 < ε) (h : ℝ) :
    scalarDt A ε h ≤ A / ε ^ ((7:ℝ)/3) := by
  have hbase : ε ≤ max (max h 0) ε := le_max_right _ _
  have h1 : ε ^ ((7:ℝ)/3) ≤ (max (max h 0) ε) ^ ((7:ℝ)/3) :=
    Real.rpow_le_rpow (le_of_lt hε) hbase (by norm_num)
  have hpos2 : (0:ℝ) < ε ^ ((7:ℝ)/3) := Real.rpow_pos_of_pos hε _
  unfold scalarDt
  exact div_le_div_of_nonneg_left (le_of_lt hA) hpos2 h1

/-- Below the steady state the scalar update is clamp-free, moves upward and
stays bounded. -/
theorem scalar_low (R c A ε : ℝ) (hR : 0 < R) (hc : 0 < c) (hA : 0 < A) (hε : 0 < ε)
    (h : ℝ) (h0 : 0 ≤ h) (hhs : h ≤ (R/c) ^ ((3:ℝ)/10)) :
    scalarStep R c A ε h = h + scalarDt A ε h * (R - c * h ^ ((10:ℝ)/3)) ∧
    h ≤ scalarStep R c A ε h ∧
    scalarStep R c A ε h ≤ (R/c) ^ ((3:ℝ)/10) + A / ε ^ ((7:ℝ)/3) * R := by
  have hdt := scalarDt_pos A ε hA hε h
  have hφ : 0 ≤ R - c * h ^ ((10:ℝ)/3) := by
    have hmono : h ^ ((10:ℝ)/3) ≤ ((R/c) ^ ((3:ℝ)/10)) ^ ((10:ℝ)/3) :=
      Real.rpow_le_rpow h0 hhs (by norm_num)
    have hmul := mul_le_mul_of_nonneg_left hmono (le_of_lt hc)
    rw [scalar_cHs R c hR hc] at hmul
    linarith
  have hinner : h ≤ h + scalarDt A ε h * (R - c * h ^ ((10:ℝ)/3)) := by
    nlinarith
  have heq : scalarStep R c A ε h = h + scalarDt A ε h * (R - c * h ^ ((10:ℝ)/3)) :=
    max_eq_right (le_trans h0 hinner)
  refine ⟨heq, le_of_le_of_eq hinner heq.symm, ?_⟩
  rw [heq]
  have hφR : R - c * h ^ ((10:ℝ)/3) ≤ R := by
    have : 0 ≤ c * h ^ ((10:ℝ)/3) := mul_nonneg (le_of_lt hc) (Real.rpow_nonneg h0 _)
    linarith
  have h1 : scalarDt A ε h * (R - c * h ^ ((10:ℝ)/3)) ≤ scalarDt A ε h * R :=
    mul_le_mul_of_nonneg_left hφR (le_of_lt hdt)
  have h2 : scalarDt A ε h * R ≤ A / ε ^ ((7:ℝ)/3) * R :=
    mul_le_mul_of_nonneg_right (scalarDt_cap A ε hA hε h) (le_of_lt hR)
  linarith

/-- At or above the steady state the scalar update is clamp-free, does not
overshoot below the steady state (using the stability bound
`A * c ≤ 3/10`, i.e. `alpha ≤ 3/5`), and does not increase. -/
theorem scalar_high (R c A ε : ℝ) (hR : 0 < R) (hc : 0 < c) (hA : 0 < A) (hε : 0 < ε)
    (hAc : A * c ≤ 3/10) (h : ℝ) (hhs : (R/c) ^ ((3:ℝ)/10) ≤ h) :
    scalarStep R c A ε h = h + scalarDt A ε h * (R - c * h ^ ((10:ℝ)/3)) ∧
    (R/c) ^ ((3:ℝ)/10) ≤ scalarStep R c A ε h ∧
    scalarStep R c A ε h ≤ h := by
  have hHs : (0:ℝ) < (R/c) ^ ((3:ℝ)/10) := Real.rpow_pos_of_pos (div_pos hR hc) _
  have h0 : 0 ≤ h := le_trans (le_of_lt hHs) hhs
  have hdt := scalarDt_pos A ε hA hε h
  have hφ : R ≤ c * h ^ ((10:ℝ)/3) := by
    have hmono : ((R/c) ^ ((3:ℝ)/10)) ^ ((10:ℝ)/3) ≤ h ^ ((10:ℝ)/3) :=
      Real.rpow_le_rpow (le_of_lt hHs) hhs (by norm_num)
    have hmul := mul_le_mul_of_nonneg_left hmono (le_of_lt hc)
    rw [scalar_cHs R c hR hc] at hmul
    linarith
  have hbern := rpow_diff_le h ((R/c) ^ ((3:ℝ)/10)) (le_of_lt hHs) hhs
  -- bound dt * c * (10/3) * h^(7/3) ≤ 1
  have hHm : h ≤ max (max h 0) ε := le_trans (le_max_left h 0) (le_max_left _ _)
  have hHmpos : (0:ℝ) < max (max h 0) ε := lt_of_lt_of_le hε (le_max_right _ _)
  have hHm73 : (0:ℝ) < (max (max h 0) ε) ^ ((7:ℝ)/3) := Real.rpow_pos_of_pos hHmpos _
  have hr73 : h ^ ((7:ℝ)/3) ≤ (max (max h 0) ε) ^ ((7:ℝ)/3) :=
    Real.rpow_le_rpow h0 hHm (by norm_num)
  have hdtval : scalarDt A ε h * (max (max h 0) ε) ^ ((7:ℝ)/3) = A := by
    unfold scalarDt
    field_simp
  have hkey : scalarDt A ε h * (c * ((10:ℝ)/3 * h ^ ((7:ℝ)/3))) ≤ 1 := by
    have hstep1 : scalarDt A ε h * h ^ ((7:ℝ)/3) ≤ A := by
      calc scalarDt A ε h * h ^ ((7:ℝ)/3) ≤
          scalarDt A ε h * (max (max h 0) ε) ^ ((7:ℝ)/3) :=
            mul_le_mul_of_nonneg_left hr73 (le_of_lt hdt)
      _ = A := hdtval
    have hstep2 : c * ((10:ℝ)/3) * (scalarDt A ε h * h ^ ((7:ℝ)/3)) ≤ c * ((10:ℝ)/3) * A :=
      mul_le_mul_of_nonneg_left hstep1 (by positivity)
    calc scalarDt A ε h * (c * ((10:ℝ)/3 * h ^ ((7:ℝ)/3))) =
        c * ((10:ℝ)/3) * (scalarDt A ε h * h ^ ((7:ℝ)/3)) := by ring
    _ ≤ c * ((10:ℝ)/3) * A := hstep2
    _ ≤ 1 := by nlinarith
  -- lower bound on the inner value
  have hinnerlow : (R/c) ^ ((3:ℝ)/10) ≤ h + scalarDt A ε h * (R - c * h ^ ((10:ℝ)/3)) := by
    have hd1 : scalarDt A ε h * c *
        (h ^ ((10:ℝ)/3) - ((R/c) ^ ((3:ℝ)/10)) ^ ((10:ℝ)/3)) ≤
        scalarDt A ε h * c * ((10:ℝ)/3 * h ^ ((7:ℝ)/3) * (h - (R/c) ^ ((3:ℝ)/10))) := by
      apply mul_le_mul_of_nonneg_left _ (by positivity)
      calc h ^ ((10:ℝ)/3) - ((R/c) ^ ((3:ℝ)/10)) ^ ((10:ℝ)/3) ≤
          (10:ℝ)/3 * h ^ ((7:ℝ)/3) * (h - (R/c) ^ ((3:ℝ)/10)) := hbern
      _ = (10:ℝ)/3 * h ^ ((7:ℝ)/3) * (h - (R/c) ^ ((3:ℝ)/10)) := rfl
    have hcHs := scalar_cHs R c hR hc
    have hfac : 0 ≤ (1 - scalarDt A ε h * (c * ((10:ℝ)/3 * h ^ ((7:ℝ)/3)))) *
        (h - (R/c) ^ ((3:ℝ)/10)) :=
      mul_nonneg (by linarith) (by linarith)
    nlinarith [hd1, hfac]
  have hinnerle : h + scalarDt A ε h * (R - c * h ^ ((10:ℝ)/3)) ≤ h := by
    nlinarith
  have heq : scalarStep R c A ε h = h + scalarDt A ε h * (R - c * h ^ ((10:ℝ)/3)) :=
    max_eq_right (le_trans (le_of_lt hHs) hinnerlow)
  exact ⟨heq, le_of_le_of_eq hinnerlow heq.symm, le_trans (le_of_eq heq) hinnerle⟩


/-- Convergence of the stability-limited scalar Euler iteration to the
steady-state depth `(R/c)^(3/10)`: below the steady state the iterates
increase by at least a fixed amount per step until they either converge to
the steady state or cross it, and after a crossing they decrease
monotonically back to it without ever undershooting. -/
theorem scalar_converges (R c A ε : ℝ) (hR : 0 < R) (hc : 0 < c) (hA : 0 < A) (hε : 0 < ε)
    (hAc : A * c ≤ 3/10) (seq : ℕ → ℝ) (h0 : seq 0 = 0)
    (hrec : ∀ k, seq (k+1) = scalarStep R c A ε (seq k)) :
    Filter.Tendsto seq Filter.atTop (nhds ((R/c) ^ ((3:ℝ)/10))) := by
  have hHs : (0:ℝ) < (R/c) ^ ((3:ℝ)/10) := Real.rpow_pos_of_pos (div_pos hR hc) _
  by_cases hcase : ∀ k, seq k ≤ (R/c) ^ ((3:ℝ)/10)
  · -- the sequence stays at or below the steady state: monotone convergence
    have hnn : ∀ k, 0 ≤ seq k := by
      intro k
      induction k with
      | zero => rw [h0]
      | succ n ih =>
        rw [hrec n]
        exact le_trans ih (scalar_low R c A ε hR hc hA hε (seq n) ih (hcase n)).2.1
    have hmono : Monotone seq := monotone_nat_of_le_succ (fun n => by
      rw [hrec n]
      exact (scalar_low R c A ε hR hc hA hε (seq n) (hnn n) (hcase n)).2.1)
    have hbdd : BddAbove (Set.range seq) := by
      refine ⟨(R/c) ^ ((3:ℝ)/10), ?_⟩
      rintro x ⟨k, rfl⟩
      exact hcase k
    have htend : Filter.Tendsto seq Filter.atTop (nhds (⨆ k, seq k)) :=
      tendsto_atTop_ciSup hmono hbdd
    suffices hsup : (⨆ k, seq k) = (R/c) ^ ((3:ℝ)/10) by
      rw [← hsup]
      exact htend
    have hLle : (⨆ k, seq k) ≤ (R/c) ^ ((3:ℝ)/10) := ciSup_le hcase
    by_contra hne
    have hLlt : (⨆ k, seq k) < (R/c) ^ ((3:ℝ)/10) := lt_of_le_of_ne hLle hne
    have hL0 : 0 ≤ ⨆ k, seq k := by
      have h00 := le_ciSup hbdd 0
      rw [h0] at h00
      exact h00
    have hφL : 0 < R - c * (⨆ k, seq k) ^ ((10:ℝ)/3) := by
      have hlt : (⨆ k, seq k) ^ ((10:ℝ)/3) < ((R/c) ^ ((3:ℝ)/10)) ^ ((10:ℝ)/3) :=
        Real.rpow_lt_rpow hL0 hLlt (by norm_num)
      have hm := mul_lt_mul_of_pos_left hlt hc
      rw [scalar_cHs R c hR hc] at hm
      linarith
    have hδ : 0 < scalarDt A ε ((R/c) ^ ((3:ℝ)/10)) := scalarDt_pos A ε hA hε _
    have hstep : ∀ k, seq k + scalarDt A ε ((R/c) ^ ((3:ℝ)/10)) *
        (R - c * (⨆ j, seq j) ^ ((10:ℝ)/3)) ≤ seq (k+1) := by
      intro k
      have hlow := scalar_low R c A ε hR hc hA hε (seq k) (hnn k) (hcase k)
      rw [hrec k, hlow.1]
      have hd : scalarDt A ε ((R/c) ^ ((3:ℝ)/10)) ≤ scalarDt A ε (seq k) :=
        scalarDt_ge A ε hA hε _ _ (hcase k)
      have hφk : R - c * (⨆ j, seq j) ^ ((10:ℝ)/3) ≤ R - c * (seq k) ^ ((10:ℝ)/3) := by
        have hles : seq k ≤ ⨆ j, seq j := le_ciSup hbdd k
        have hrp : (seq k) ^ ((10:ℝ)/3) ≤ (⨆ j, seq j) ^ ((10:ℝ)/3) :=
          Real.rpow_le_rpow (hnn k) hles (by norm_num)
        nlinarith
      have hmm := mul_le_mul hd hφk (le_of_lt hφL)
        (le_of_lt (scalarDt_pos A ε hA hε (seq k)))
      linarith
    have hgrow : ∀ n : ℕ, (n : ℝ) * (scalarDt A ε ((R/c) ^ ((3:ℝ)/10)) *
        (R - c * (⨆ j, seq j) ^ ((10:ℝ)/3))) ≤ seq n := by
      intro n
      induction n with
      | zero =>
        rw [h0]
        norm_num
      | succ n ih =>
        have hs := hstep n
        push_cast
        push_cast at ih
        nlinarith
    obtain ⟨n, hn⟩ := exists_nat_gt (((R/c) ^ ((3:ℝ)/10)) /
      (scalarDt A ε ((R/c) ^ ((3:ℝ)/10)) * (R - c * (⨆ j, seq j) ^ ((10:ℝ)/3))))
    have hX : 0 < scalarDt A ε ((R/c) ^ ((3:ℝ)/10)) *
        (R - c * (⨆ j, seq j) ^ ((10:ℝ)/3)) := mul_pos hδ hφL
    have h1 : (R/c) ^ ((3:ℝ)/10) < n * (scalarDt A ε ((R/c) ^ ((3:ℝ)/10)) *
        (R - c * (⨆ j, seq j) ^ ((10:ℝ)/3))) := (div_lt_iff₀ hX).mp hn
    have h2 : seq n ≤ (R/c) ^ ((3:ℝ)/10) := hcase n
    linarith [hgrow n]
  · -- the sequence crosses the steady state: antitone convergence of the tail
    push_neg at hcase
    obtain ⟨N, hN⟩ := hcase
    have htail : ∀ j, (R/c) ^ ((3:ℝ)/10) ≤ seq (N + j) := by
      intro j
      induction j with
      | zero => exact le_of_lt hN
      | succ j ih =>
        rw [show N + (j+1) = (N+j)+1 from rfl, hrec (N+j)]
        exact (scalar_high R c A ε hR hc hA hε hAc (seq (N+j)) ih).2.1
    have hanti : Antitone (fun j => seq (N + j)) := by
      apply antitone_nat_of_succ_le
      intro j
      show seq (N + (j+1)) ≤ seq (N + j)
      rw [show N + (j+1) = (N+j)+1 from rfl, hrec (N+j)]
      exact (scalar_high R c A ε hR hc hA hε hAc (seq (N+j)) (htail j)).2.2
    have hbddb : BddBelow (Set.range fun j => seq (N + j)) := by
      refine ⟨(R/c) ^ ((3:ℝ)/10), ?_⟩
      rintro x ⟨k, rfl⟩
      exact htail k
    have htendt : Filter.Tendsto (fun j => seq (N + j)) Filter.atTop
        (nhds (⨅ j, seq (N + j))) := tendsto_atTop_ciInf hanti hbddb
    suffices hinf : (⨅ j, seq (N + j)) = (R/c) ^ ((3:ℝ)/10) by
      have hfe : (fun j => seq (N + j)) = (fun j => seq (j + N)) :=
        funext (fun j => by rw [Nat.add_comm])
      rw [hinf] at htendt
      rw [hfe] at htendt
      exact (Filter.tendsto_add_atTop_iff_nat N).mp htendt
    have hge : (R/c) ^ ((3:ℝ)/10) ≤ ⨅ j, seq (N + j) := le_ciInf htail
    by_contra hne
    have hgt : (R/c) ^ ((3:ℝ)/10) < ⨅ j, seq (N + j) :=
      lt_of_le_of_ne hge (Ne.symm hne)
    have hL0 : (0:ℝ) ≤ ⨅ j, seq (N + j) := le_trans (le_of_lt hHs) hge
    have hγ : 0 < c * (⨅ j, seq (N + j)) ^ ((10:ℝ)/3) - R := by
      have hlt : ((R/c) ^ ((3:ℝ)/10)) ^ ((10:ℝ)/3) < (⨅ j, seq (N + j)) ^ ((10:ℝ)/3) :=
        Real.rpow_lt_rpow (le_of_lt hHs) hgt (by norm_num)
      have hm := mul_lt_mul_of_pos_left hlt hc
      rw [scalar_cHs R c hR hc] at hm
      linarith
    have htail_le : ∀ j, seq (N + j) ≤ seq N := by
      intro j
      have ha := hanti (Nat.zero_le j)
      simpa using ha
    have hδpos : 0 < scalarDt A ε (seq N) := scalarDt_pos A ε hA hε _
    have hstep : ∀ j, seq (N + (j+1)) ≤ seq (N + j) - scalarDt A ε (seq N) *
        (c * (⨅ i, seq (N + i)) ^ ((10:ℝ)/3) - R) := by
      intro j
      have hh := scalar_high R c A ε hR hc hA hε hAc (seq (N+j)) (htail j)
      rw [show N + (j+1) = (N+j)+1 from rfl, hrec (N+j), hh.1]
      have hd : scalarDt A ε (seq N) ≤ scalarDt A ε (seq (N+j)) :=
        scalarDt_ge A ε hA hε _ _ (htail_le j)
      have hφj : c * (⨅ i, seq (N + i)) ^ ((10:ℝ)/3) - R ≤
          c * (seq (N+j)) ^ ((10:ℝ)/3) - R := by
        have hinfle : (⨅ i, seq (N + i)) ≤ seq (N+j) := ciInf_le hbddb j
        have hrp : (⨅ i, seq (N + i)) ^ ((10:ℝ)/3) ≤ (seq (N+j)) ^ ((10:ℝ)/3) :=
          Real.rpow_le_rpow hL0 hinfle (by norm_num)
        nlinarith
      have hmm := mul_le_mul hd hφj (le_of_lt hγ)
        (le_of_lt (scalarDt_pos A ε hA hε (seq (N+j))))
      linarith
    have hdecr : ∀ n : ℕ, seq (N + n) ≤ seq N - (n:ℝ) * (scalarDt A ε (seq N) *
        (c * (⨅ i, seq (N + i)) ^ ((10:ℝ)/3) - R)) := by
      intro n
      induction n with
      | zero => simp
      | succ n ih =>
        have hs := hstep n
        push_cast
        push_cast at ih
        nlinarith
    obtain ⟨n, hn⟩ := exists_nat_gt ((seq N - (R/c) ^ ((3:ℝ)/10)) /
      (scalarDt A ε (seq N) * (c * (⨅ i, seq (N + i)) ^ ((10:ℝ)/3) - R)))
    have hX : 0 < scalarDt A ε (seq N) *
        (c * (⨅ i, seq (N + i)) ^ ((10:ℝ)/3) - R) := mul_pos hδpos hγ
    have h1 : seq N - (R/c) ^ ((3:ℝ)/10) < n * (scalarDt A ε (seq N) *
        (c * (⨅ i, seq (N + i)) ^ ((10:ℝ)/3) - R)) := (div_lt_iff₀ hX).mp hn
    have h2 := htail n
    linarith [hdecr n]


/-- Maximum core depth on the single-cell mesh. -/
theorem SC_coreMax (dx : ℝ) (H : Fin 2 → ℝ) :
    coreMaxDepth (meshSingle dx) H = max (H 0) 0 := by
  simp [coreMaxDepth, meshSingle, Mesh.isCore, List.finRange]

/-- Shortest active link length on the single-cell mesh. -/
theorem SC_minLen (dx : ℝ) : minActiveLinkLength (meshSingle dx) = dx := by
  simp [minActiveLinkLength, meshSingle, Mesh.linkActive, List.finRange]

/-- The stability-limited step of the single-cell mesh equals its scalar
reduction. -/
theorem SC_dtMax (dx : ℝ) (p : Params) (hfl : 0 < p.depthFloor)
    (H : Fin 2 → ℝ) :
    dtMax (meshSingle dx) p H =
      scalarDt (p.alpha * dx^2 * nu p / 2) p.depthFloor (H 0) := by
  rw [dtMax, SC_coreMax, SC_minLen, scalarDt]
  have hHm : (0:ℝ) < max (max (H 0) 0) p.depthFloor :=
    lt_of_lt_of_le hfl (le_max_right _ _)
  have h73 : (0:ℝ) < (max (max (H 0) 0) p.depthFloor) ^ ((7:ℝ)/3) :=
    Real.rpow_pos_of_pos hHm _
  field_simp

/-- Power bookkeeping: `h^(4/3) * h * h = h^(10/3)` for nonnegative `h`. -/
theorem rpow_four_thirds_mul (h : ℝ) (h0 : 0 ≤ h) :
    h ^ ((4:ℝ)/3) * h * h = h ^ ((10:ℝ)/3) := by
  rcases eq_or_lt_of_le h0 with heq | hpos
  · rw [← heq]
    rw [Real.zero_rpow (by norm_num : ((4:ℝ)/3) ≠ 0),
      Real.zero_rpow (by norm_num : ((10:ℝ)/3) ≠ 0)]
    ring
  · rw [show h ^ ((4:ℝ)/3) * h * h = h ^ ((4:ℝ)/3) * h ^ (1:ℝ) * h ^ (1:ℝ) by
      rw [Real.rpow_one], ← Real.rpow_add hpos, ← Real.rpow_add hpos]
    norm_num

/-- A sub-step on the single-cell mesh reduces to the scalar update: the
discharge drains `h^(10/3) / (n^2 u_c dx)` through the open boundary and the
boundary depth stays at zero. -/
theorem SC_substep (dx : ℝ) (p : Params) (hdx : 0 < dx) (hnu : 0 < nu p)
    (hI : p.infiltCap = 0) (s : State 2 1) (dt : ℝ) (h0 : 0 ≤ s.depth 0)
    (hs1 : s.depth 1 = 0) :
    (substep (meshSingle dx) p s dt).depth 0 =
        max 0 (s.depth 0 + dt * (p.rain -
          1 / (nu p * dx^2) * s.depth 0 ^ ((10:ℝ)/3))) ∧
      (substep (meshSingle dx) p s dt).depth 1 = 0 := by
  have hup : upwindDepth (meshSingle dx) s.depth 0 = s.depth 0 := by
    rw [upwindDepth]
    rcases eq_or_lt_of_le h0 with heq | hpos
    · split
      · rw [show (meshSingle dx).linkTail 0 = (1 : Fin 2) from rfl, hs1, ← heq]
      · rfl
    · rw [if_neg]
      · rfl
      · show ¬ ((meshSingle dx).elev 0 + s.depth 0 ≤ (meshSingle dx).elev 1 + s.depth 1)
        rw [hs1]
        show ¬ ((0:ℝ) + s.depth 0 ≤ 0 + 0)
        push_neg
        linarith
  have hslope : waterSlope (meshSingle dx) s.depth 0 = -(s.depth 0) / dx := by
    rw [waterSlope]
    show ((0:ℝ) + s.depth 1 - (0 + s.depth 0)) / dx = _
    rw [hs1]
    ring
  have hq : linkDischarge (meshSingle dx) p s.depth 0 =
      -(s.depth 0 ^ ((10:ℝ)/3)) / (nu p * dx) := by
    rw [linkDischarge, if_pos (show (meshSingle dx).linkActive 0 = true by rfl),
      hup, hslope]
    have h43 := rpow_four_thirds_mul (s.depth 0) h0
    field_simp
    nlinarith [h43]
  have hqe : ∀ e : Fin 1, linkDischarge (meshSingle dx) p s.depth e =
      -(s.depth 0 ^ ((10:ℝ)/3)) / (nu p * dx) := by
    intro e
    rw [Fin.fin_one_eq_zero e]
    exact hq
  have hdiv : flowDiv (meshSingle dx)
      (fun e => linkDischarge (meshSingle dx) p s.depth e) 0 =
      1 / (nu p * dx^2) * s.depth 0 ^ ((10:ℝ)/3) := by
    rw [flowDiv, Fin.sum_univ_one, hqe 0]
    show linkSign (meshSingle dx) 0 0 * dx * (-(s.depth 0 ^ ((10:ℝ)/3)) / (nu p * dx)) /
      dx^2 = _
    rw [show linkSign (meshSingle dx) 0 0 = -1 by
      rw [linkSign]
      norm_num [meshSingle]]
    field_simp
    ring
  constructor
  · dsimp only [substep]
    rw [if_pos (show (meshSingle dx).status 0 = NodeStatus.core by rfl), hdiv]
    rw [show infiltration p (s.depth 0) = 0 by rw [infiltration, hI]; ring]
    norm_num
  · dsimp only [substep]
    rw [if_neg (show ¬ (meshSingle dx).status 1 = NodeStatus.core by simp [meshSingle])]
    exact hs1


/-- One stability-limited sub-step on the single-cell mesh is exactly the
scalar Euler update. -/
theorem SC_step (dx : ℝ) (p : Params) (hdx : 0 < dx) (hnu : 0 < nu p)
    (hfl : 0 < p.depthFloor) (hI : p.infiltCap = 0) (s : State 2 1)
    (h0 : 0 ≤ s.depth 0) (hs1 : s.depth 1 = 0) :
    (substep (meshSingle dx) p s (dtMax (meshSingle dx) p s.depth)).depth 0 =
        scalarStep p.rain (1/(nu p * dx^2)) (p.alpha * dx^2 * nu p / 2) p.depthFloor
          (s.depth 0) ∧
      (substep (meshSingle dx) p s (dtMax (meshSingle dx) p s.depth)).depth 1 = 0 ∧
      0 ≤ (substep (meshSingle dx) p s (dtMax (meshSingle dx) p s.depth)).depth 0 := by
  have hsub := SC_substep dx p hdx hnu hI s (dtMax (meshSingle dx) p s.depth) h0 hs1
  have hdtm := SC_dtMax dx p hfl s.depth
  refine ⟨?_, hsub.2, ?_⟩
  · rw [hsub.1, hdtm, scalarStep]
  · rw [hsub.1]
    exact le_max_left 0 _

/-- Invariants of the single-cell iteration: the boundary node stays at zero
depth and the core depth stays nonnegative. -/
theorem SC_inv (dx : ℝ) (p : Params) (hdx : 0 < dx) (hnu : 0 < nu p)
    (hfl : 0 < p.depthFloor) (hI : p.infiltCap = 0) :
    ∀ k, (cflIter (meshSingle dx) p k).depth 1 = 0 ∧
      0 ≤ (cflIter (meshSingle dx) p k).depth 0 := by
  intro k
  induction k with
  | zero => exact ⟨rfl, le_rfl⟩
  | succ n ih =>
    have hstep := SC_step dx p hdx hnu hfl hI (cflIter (meshSingle dx) p n) ih.2 ih.1
    exact ⟨hstep.2.1, hstep.2.2⟩

/-- The single-cell core depth follows the scalar recursion. -/
theorem SC_rec (dx : ℝ) (p : Params) (hdx : 0 < dx) (hnu : 0 < nu p)
    (hfl : 0 < p.depthFloor) (hI : p.infiltCap = 0) :
    ∀ k, (cflIter (meshSingle dx) p (k+1)).depth 0 =
      scalarStep p.rain (1/(nu p * dx^2)) (p.alpha * dx^2 * nu p / 2) p.depthFloor
        ((cflIter (meshSingle dx) p k).depth 0) := by
  intro k
  have hinv := SC_inv dx p hdx hnu hfl hI k
  exact (SC_step dx p hdx hnu hfl hI (cflIter (meshSingle dx) p k) hinv.2 hinv.1).1

/-- C4: on the single-cell mesh (one core cell of spacing `dx` with one open
FIXED_VALUE neighbor held at zero depth), driven by constant rainfall with
no infiltration, the water depth of the core node under the canonical
stability-limited sub-stepping converges, as simulated time grows, to
`(dx^2 * R * n^2 * u_c) ^ 0.3`. -/
theorem singleCell_steady_state (dx : ℝ) (p : Params) (hdx : 0 < dx) (hR : 0 < p.rain)
    (hn : 0 < p.roughness) (hu : 0 < p.velScale) (hI : p.infiltCap = 0)
    (hfl : 0 < p.depthFloor) (ha : 0 < p.alpha) (ha2 : p.alpha ≤ 3/5) :
    Filter.Tendsto (fun k => (cflIter (meshSingle dx) p k).depth 0) Filter.atTop
      (nhds ((dx^2 * p.rain * (p.roughness^2 * p.velScale)) ^ ((3:ℝ)/10))) := by
  have hnu : 0 < nu p := mul_pos (pow_pos hn 2) hu
  have hc : (0:ℝ) < 1/(nu p * dx^2) := by positivity
  have hA : (0:ℝ) < p.alpha * dx^2 * nu p / 2 := by positivity
  have hAc : (p.alpha * dx^2 * nu p / 2) * (1/(nu p * dx^2)) ≤ 3/10 := by
    have heq : (p.alpha * dx^2 * nu p / 2) * (1/(nu p * dx^2)) = p.alpha / 2 := by
      field_simp
      ring
    rw [heq]
    linarith
  have hconv := scalar_converges p.rain (1/(nu p * dx^2)) (p.alpha * dx^2 * nu p / 2)
    p.depthFloor hR hc hA hfl hAc (fun k => (cflIter (meshSingle dx) p k).depth 0)
    rfl (SC_rec dx p hdx hnu hfl hI)
  have hbase : p.rain / (1/(nu p * dx^2)) = dx^2 * p.rain * (p.roughness^2 * p.velScale) := by
    rw [one_div, div_inv_eq_mul, nu]
    ring
  rw [show dx^2 * p.rain * (p.roughness^2 * p.velScale) = p.rain / (1/(nu p * dx^2))
    from hbase.symm]
  exact hconv

/-- C4 witness: the convergence theorem at the documented example parameters
(`dx = 2`, `R = 2e-5`, `n = 0.01`, `u_c = 1`). -/
theorem singleCell_steady_state_witness :
    Filter.Tendsto (fun k => (cflIter (meshSingle 2) paramsSC k).depth 0) Filter.atTop
      (nhds (((2:ℝ)^2 * paramsSC.rain * (paramsSC.roughness^2 * paramsSC.velScale)) ^
        ((3:ℝ)/10))) :=
  singleCell_steady_state 2 paramsSC (by norm_num)
    (show (0:ℝ) < 1/50000 by norm_num) (show (0:ℝ) < 1/100 by norm_num)
    (show (0:ℝ) < 1 by norm_num) rfl
    (show (0:ℝ) < 1/1000000000 by norm_num) (show (0:ℝ) < 1/5 by norm_num)
    (show (1/5 : ℝ) ≤ 3/5 by norm_num)

end OverlandFlow
